import Mathlib

set_option linter.unusedVariables false

/-!
Verification of the semantic front end of the rusty structured-text compiler:
shallow embedding of the recursive-descent parser (src/parser.rs), the type
system (src/typesystem.rs) and the constant evaluator
(src/resolver/const_evaluator.rs), together with theorems settling the
frozen specification claims.

Conventions of the embedding:
- The token stream consumed by the parser is a `List Tok`; the current token
  of the Rust `RustyLexer` is the head of the list (`curKind`/`curSlice`) and
  `advance` is `List.tail`.  An exhausted lexer reports the `End` token with
  an empty slice, matching logos.  Byte spans are not modelled, so the
  location suffix of the two diagnostic strings built by
  `unidentified_token`/`unexpected_token` is dropped; no theorem below
  depends on those two messages.
- Every parser production takes and returns the token stream explicitly:
  a Rust function with signature `(&mut RustyLexer) -> Result<T, String>`
  becomes `List Tok → Except String T × List Tok`, so the lexer position is
  tracked on the error path too, exactly as the mutable borrow does (several
  productions keep working with the lexer after an inner production has
  already failed).
- Rust recursion is modelled with an explicit fuel argument (structural
  recursion on `Nat`); every claim is settled with enough fuel, and the
  fuel-out branch returns a distinguished error that no theorem relies on.
- Machine integers (`i128`, `u32`) are modelled as `Int`/`Nat`; the masking
  the source performs explicitly (`v & mask`) is kept explicit via
  `i128_and`, an executable rendering of the two's-complement AND of i128.
  `f64` values are abstracted as `Rat`: no claim depends on the numeric
  value of a real constant, only on which constructor or which error branch
  is taken.
-/

namespace Rusty

/-- Token kinds exposed by the lexer (module lexer, exercised by
src/lexer/tests.rs); only the kinds consumed by src/parser.rs are modelled.
`End` is the end-of-input token, `Error` the unidentified-input sentinel. -/
inductive TokKind where
  | KeywordProgram
  | KeywordEndProgram
  | KeywordVar
  | KeywordEndVar
  | KeywordColon
  | KeywordSemicolon
  | KeywordAssignment
  | KeywordParensOpen
  | KeywordParensClose
  | KeywordIf
  | KeywordThen
  | KeywordElseIf
  | KeywordElse
  | KeywordEndIf
  | OperatorPlus
  | OperatorMinus
  | OperatorMultiplication
  | OperatorDivision
  | OperatorModulo
  | OperatorEqual
  | OperatorNotEqual
  | OperatorLess
  | OperatorGreater
  | OperatorLessOrEqual
  | OperatorGreaterOrEqual
  | OperatorAnd
  | OperatorOr
  | OperatorXor
  | OperatorNot
  | Identifier
  | LiteralNumber
  | LiteralTrue
  | LiteralFalse
  | End
  | Error
deriving DecidableEq, Repr

/-- A token: kind plus the raw source slice (the byte span is not
modelled). -/
structure Tok where
  kind : TokKind
  slice : String
deriving DecidableEq, Repr

/-- Debug-style name of a token kind, as interpolated by the Rust error
messages. -/
def tokName : TokKind → String
  | .KeywordProgram => "KeywordProgram"
  | .KeywordEndProgram => "KeywordEndProgram"
  | .KeywordVar => "KeywordVar"
  | .KeywordEndVar => "KeywordEndVar"
  | .KeywordColon => "KeywordColon"
  | .KeywordSemicolon => "KeywordSemicolon"
  | .KeywordAssignment => "KeywordAssignment"
  | .KeywordParensOpen => "KeywordParensOpen"
  | .KeywordParensClose => "KeywordParensClose"
  | .KeywordIf => "KeywordIf"
  | .KeywordThen => "KeywordThen"
  | .KeywordElseIf => "KeywordElseIf"
  | .KeywordElse => "KeywordElse"
  | .KeywordEndIf => "KeywordEndIf"
  | .OperatorPlus => "OperatorPlus"
  | .OperatorMinus => "OperatorMinus"
  | .OperatorMultiplication => "OperatorMultiplication"
  | .OperatorDivision => "OperatorDivision"
  | .OperatorModulo => "OperatorModulo"
  | .OperatorEqual => "OperatorEqual"
  | .OperatorNotEqual => "OperatorNotEqual"
  | .OperatorLess => "OperatorLess"
  | .OperatorGreater => "OperatorGreater"
  | .OperatorLessOrEqual => "OperatorLessOrEqual"
  | .OperatorGreaterOrEqual => "OperatorGreaterOrEqual"
  | .OperatorAnd => "OperatorAnd"
  | .OperatorOr => "OperatorOr"
  | .OperatorXor => "OperatorXor"
  | .OperatorNot => "OperatorNot"
  | .Identifier => "Identifier"
  | .LiteralNumber => "LiteralNumber"
  | .LiteralTrue => "LiteralTrue"
  | .LiteralFalse => "LiteralFalse"
  | .End => "End"
  | .Error => "Error"

/-- Current token kind of the lexer (head of the stream; `End` once the
stream is exhausted). -/
def curKind : List Tok → TokKind
  | [] => TokKind.End
  | t :: _ => t.kind

/-- Current raw slice of the lexer (empty at end of input). -/
def curSlice : List Tok → String
  | [] => ""
  | t :: _ => t.slice

/-- Operator enumeration from ast.rs (spec section 3). -/
inductive Operator where
  | Plus
  | Minus
  | Multiplication
  | Division
  | Modulo
  | Equal
  | NotEqual
  | Less
  | Greater
  | LessOrEqual
  | GreaterOrEqual
  | And
  | Or
  | Xor
  | Not
deriving DecidableEq, Repr

mutual

/-- AST statements produced by src/parser.rs (enum Statement of ast.rs,
reconstructed from its uses in parser.rs and spec section 3). -/
inductive Statement where
  | Reference (name : String)
  | LiteralNumber (value : String)
  | LiteralBool (value : Bool)
  | BinaryExpression (operator : Operator) (left : Statement) (right : Statement)
  | UnaryExpression (operator : Operator) (value : Statement)
  | Assignment (left : Statement) (right : Statement)
  | IfStatement (blocks : List ConditionalBlock) (else_block : List Statement)

/-- Condition expression plus ordered body statements (ast.rs). -/
inductive ConditionalBlock where
  | mk (condition : Statement) (body : List Statement)

end

/-- Primitive type tags of the parser AST (ast.rs). -/
inductive PrimitiveType where
  | Int
  | Bool
deriving DecidableEq, Repr

/-- Resolved type of a declared variable (ast.rs): a primitive or an
unresolved custom reference.  Named Type in the source; renamed because
Type is a Lean keyword. -/
inductive Ty where
  | Primitive (t : PrimitiveType)
  | Custom
deriving DecidableEq, Repr

/-- A declared variable: name and resolved data type (ast.rs). -/
structure Variable where
  name : String
  data_type : Ty
deriving DecidableEq, Repr

/-- An ordered block of variable declarations (ast.rs).  The field is named
variables in the source; renamed because variables is a Lean keyword. -/
structure VariableBlock where
  vars : List Variable
deriving DecidableEq, Repr

/-- A program: name, variable blocks, statements (ast.rs). -/
structure Program where
  name : String
  variable_blocks : List VariableBlock
  statements : List Statement

/-- A compilation unit: ordered sequence of programs (ast.rs). -/
structure CompilationUnit where
  units : List Program

/-- Result of a parser production: the Rust return value paired with the
token stream the mutably borrowed lexer holds after the call. -/
abbrev PRes (α : Type) := Except String α × List Tok

/-- The expect! macro of parser.rs: the expected/found error message unless
the current token has the given kind (the Rust macro returns it from the
enclosing production; call sites below thread that early return). -/
def expectTok (k : TokKind) (ts : List Tok) : Except String Unit :=
  if curKind ts ≠ k then
    Except.error ("expected " ++ tokName k ++ ", but found " ++ tokName (curKind ts))
  else
    Except.ok ()

/-- parser.rs create_program. -/
def create_program : Program :=
  { name := "", variable_blocks := [], statements := [] }

/-- parser.rs unidentified_token (the byte-range suffix is not modelled). -/
def unidentified_token (ts : List Tok) : String :=
  "unidentified token: " ++ curSlice ts

/-- parser.rs unexpected_token (the byte-range suffix is not modelled). -/
def unexpected_token (ts : List Tok) : String :=
  "unexpected token: " ++ tokName (curKind ts)

/-- parser.rs get_data_type: map a declared type name to a Type. -/
def get_data_type (name : String) : Ty :=
  if name.toLower = "int" then Ty.Primitive PrimitiveType.Int
  else if name.toLower = "bool" then Ty.Primitive PrimitiveType.Bool
  else Ty.Custom

/-- parser.rs parse_bool_literal. -/
def parse_bool_literal (ts : List Tok) (value : Bool) : PRes Statement :=
  (Except.ok (Statement.LiteralBool value), ts.tail)

/-- parser.rs parse_reference (slice_and_advance). -/
def parse_reference (ts : List Tok) : PRes Statement :=
  (Except.ok (Statement.Reference (curSlice ts)), ts.tail)

/-- parser.rs parse_literal_number (slice_and_advance). -/
def parse_literal_number (ts : List Tok) : PRes Statement :=
  (Except.ok (Statement.LiteralNumber (curSlice ts)), ts.tail)

/-- The operator match of parse_equality_expression. -/
def equalityOperatorOf : TokKind → Option Operator
  | .OperatorEqual => some Operator.Equal
  | .OperatorNotEqual => some Operator.NotEqual
  | _ => none

/-- The operator match of parse_compare_expression. -/
def compareOperatorOf : TokKind → Option Operator
  | .OperatorLess => some Operator.Less
  | .OperatorGreater => some Operator.Greater
  | .OperatorLessOrEqual => some Operator.LessOrEqual
  | .OperatorGreaterOrEqual => some Operator.GreaterOrEqual
  | _ => none

/-- The operator match of parse_additive_expression. -/
def additiveOperatorOf : TokKind → Option Operator
  | .OperatorPlus => some Operator.Plus
  | .OperatorMinus => some Operator.Minus
  | _ => none

/-- The operator match of parse_multiplication_expression. -/
def multiplicationOperatorOf : TokKind → Option Operator
  | .OperatorMultiplication => some Operator.Multiplication
  | .OperatorDivision => some Operator.Division
  | .OperatorModulo => some Operator.Modulo
  | _ => none

/-- The operator match of parse_boolean_expression. -/
def booleanOperatorOf : TokKind → Option Operator
  | .OperatorAnd => some Operator.And
  | .OperatorOr => some Operator.Or
  | .OperatorXor => some Operator.Xor
  | _ => none

/-- The operator match of parse_unary_expression. -/
def unaryOperatorOf : TokKind → Option Operator
  | .OperatorNot => some Operator.Not
  | .OperatorMinus => some Operator.Minus
  | _ => none

/-- The end-of-body predicate of parse_if_statement. -/
def endOfIfBody (k : TokKind) : Bool :=
  k = TokKind.KeywordElseIf || k = TokKind.KeywordElse || k = TokKind.KeywordEndIf

mutual

/-- parser.rs parse_primary_expression. -/
def parse_primary_expression : Nat → List Tok → PRes Statement
  | 0, ts => (Except.error "parser out of fuel", ts)
  | fuel+1, ts => parse_equality_expression fuel ts

/-- parser.rs parse_equality_expression: parse the tighter level, then on an
equality operator recurse into this same level for the right operand. -/
def parse_equality_expression : Nat → List Tok → PRes Statement
  | 0, ts => (Except.error "parser out of fuel", ts)
  | fuel+1, ts =>
      match parse_compare_expression fuel ts with
      | (Except.error e, ts) => (Except.error e, ts)
      | (Except.ok left, ts) =>
          match equalityOperatorOf (curKind ts) with
          | none => (Except.ok left, ts)
          | some operator =>
              match parse_equality_expression fuel ts.tail with
              | (Except.error e, ts) => (Except.error e, ts)
              | (Except.ok right, ts) =>
                  (Except.ok (Statement.BinaryExpression operator left right), ts)

/-- parser.rs parse_compare_expression. -/
def parse_compare_expression : Nat → List Tok → PRes Statement
  | 0, ts => (Except.error "parser out of fuel", ts)
  | fuel+1, ts =>
      match parse_additive_expression fuel ts with
      | (Except.error e, ts) => (Except.error e, ts)
      | (Except.ok left, ts) =>
          match compareOperatorOf (curKind ts) with
          | none => (Except.ok left, ts)
          | some operator =>
              match parse_compare_expression fuel ts.tail with
              | (Except.error e, ts) => (Except.error e, ts)
              | (Except.ok right, ts) =>
                  (Except.ok (Statement.BinaryExpression operator left right), ts)

/-- parser.rs parse_additive_expression. -/
def parse_additive_expression : Nat → List Tok → PRes Statement
  | 0, ts => (Except.error "parser out of fuel", ts)
  | fuel+1, ts =>
      match parse_multiplication_expression fuel ts with
      | (Except.error e, ts) => (Except.error e, ts)
      | (Except.ok left, ts) =>
          match additiveOperatorOf (curKind ts) with
          | none => (Except.ok left, ts)
          | some operator =>
              match parse_additive_expression fuel ts.tail with
              | (Except.error e, ts) => (Except.error e, ts)
              | (Except.ok right, ts) =>
                  (Except.ok (Statement.BinaryExpression operator left right), ts)

/-- parser.rs parse_multiplication_expression. -/
def parse_multiplication_expression : Nat → List Tok → PRes Statement
  | 0, ts => (Except.error "parser out of fuel", ts)
  | fuel+1, ts =>
      match parse_boolean_expression fuel ts with
      | (Except.error e, ts) => (Except.error e, ts)
      | (Except.ok left, ts) =>
          match multiplicationOperatorOf (curKind ts) with
          | none => (Except.ok left, ts)
          | some operator =>
              match parse_multiplication_expression fuel ts.tail with
              | (Except.error e, ts) => (Except.error e, ts)
              | (Except.ok right, ts) =>
                  (Except.ok (Statement.BinaryExpression operator left right), ts)

/-- parser.rs parse_boolean_expression: the operator is matched on the token
the lexer holds after the left parse (error or not), and the right operand
is parsed by parse_primary_expression, the loosest level, not by this level
itself. -/
def parse_boolean_expression : Nat → List Tok → PRes Statement
  | 0, ts => (Except.error "parser out of fuel", ts)
  | fuel+1, ts =>
      match parse_parenthesized_expression fuel ts with
      | (current, ts) =>
          match booleanOperatorOf (curKind ts) with
          | none => (current, ts)
          | some operator =>
              match current with
              | Except.error e => (Except.error e, ts)
              | Except.ok left =>
                  match parse_primary_expression fuel ts.tail with
                  | (Except.error e, ts) => (Except.error e, ts)
                  | (Except.ok right, ts) =>
                      (Except.ok (Statement.BinaryExpression operator left right), ts)

/-- parser.rs parse_parenthesized_expression: on an opening parenthesis the
full primary expression is parsed inside and returned unchanged; the
closing parenthesis check runs on whatever the inner parse left (the inner
result is not unwrapped before the expect, matching the source). -/
def parse_parenthesized_expression : Nat → List Tok → PRes Statement
  | 0, ts => (Except.error "parser out of fuel", ts)
  | fuel+1, ts =>
      match curKind ts with
      | TokKind.KeywordParensOpen =>
          match parse_primary_expression fuel ts.tail with
          | (result, ts) =>
              match expectTok TokKind.KeywordParensClose ts with
              | Except.error e => (Except.error e, ts)
              | Except.ok _ => (result, ts.tail)
      | _ => parse_unary_expression fuel ts

/-- parser.rs parse_unary_expression. -/
def parse_unary_expression : Nat → List Tok → PRes Statement
  | 0, ts => (Except.error "parser out of fuel", ts)
  | fuel+1, ts =>
      match unaryOperatorOf (curKind ts) with
      | some operator =>
          match parse_parenthesized_expression fuel ts.tail with
          | (Except.error e, ts) => (Except.error e, ts)
          | (Except.ok value, ts) =>
              (Except.ok (Statement.UnaryExpression operator value), ts)
      | none => parse_leaf_expression fuel ts

/-- parser.rs parse_leaf_expression: a reference or literal leaf; when the
leaf parsed and the next token is the assignment keyword, the leaf becomes
the left side of an Assignment whose right side is a full primary
expression. -/
def parse_leaf_expression : Nat → List Tok → PRes Statement
  | 0, ts => (Except.error "parser out of fuel", ts)
  | fuel+1, ts =>
      match (match curKind ts with
             | TokKind.Identifier => parse_reference ts
             | TokKind.LiteralNumber => parse_literal_number ts
             | TokKind.LiteralTrue => parse_bool_literal ts true
             | TokKind.LiteralFalse => parse_bool_literal ts false
             | _ => (Except.error (unexpected_token ts), ts)) with
      | (Except.ok left, ts) =>
          if curKind ts = TokKind.KeywordAssignment then
            match parse_primary_expression fuel ts.tail with
            | (Except.error e, ts) => (Except.error e, ts)
            | (Except.ok right, ts) =>
                (Except.ok (Statement.Assignment left right), ts)
          else
            (Except.ok left, ts)
      | (Except.error e, ts) => (Except.error e, ts)

/-- parser.rs parse_body: parse control statements until the stop predicate,
the end of input or the error token is hit; if the loop stopped anywhere but
at the stop predicate, the unexpected-end-of-body error is returned.  The
accumulator models the statements vector. -/
def parse_body : Nat → (TokKind → Bool) → List Statement → List Tok →
    PRes (List Statement)
  | 0, _, _, ts => (Except.error "parser out of fuel", ts)
  | fuel+1, stop, acc, ts =>
      if ¬ stop (curKind ts) ∧ curKind ts ≠ TokKind.End ∧ curKind ts ≠ TokKind.Error then
        match parse_control_statement fuel ts with
        | (Except.error e, ts) => (Except.error e, ts)
        | (Except.ok statement, ts) => parse_body fuel stop (acc ++ [statement]) ts
      else if ¬ stop (curKind ts) then
        (Except.error ("unexpected end of body " ++ tokName (curKind ts)), ts)
      else
        (Except.ok acc, ts)

/-- parser.rs parse_control_statement. -/
def parse_control_statement : Nat → List Tok → PRes Statement
  | 0, ts => (Except.error "parser out of fuel", ts)
  | fuel+1, ts =>
      if curKind ts = TokKind.KeywordIf then
        parse_if_statement fuel ts
      else
        parse_statement fuel ts

/-- parser.rs parse_statement: a primary expression followed by a semicolon;
the semicolon check runs on whatever the expression parse left, before the
expression result is inspected, matching the source. -/
def parse_statement : Nat → List Tok → PRes Statement
  | 0, ts => (Except.error "parser out of fuel", ts)
  | fuel+1, ts =>
      match parse_primary_expression fuel ts with
      | (result, ts) =>
          match expectTok TokKind.KeywordSemicolon ts with
          | Except.error e => (Except.error e, ts)
          | Except.ok _ => (result, ts.tail)

/-- The while loop of parser.rs parse_if_statement: as long as the current
token is If or ElseIf, consume it, parse the condition, expect THEN, parse
the body up to the next ElseIf/Else/EndIf, and push the conditional block
(the condition result is unwrapped before the body result, as in the
source). -/
def parse_if_blocks : Nat → List ConditionalBlock → List Tok →
    PRes (List ConditionalBlock)
  | 0, _, ts => (Except.error "parser out of fuel", ts)
  | fuel+1, acc, ts =>
      if curKind ts = TokKind.KeywordElseIf ∨ curKind ts = TokKind.KeywordIf then
        match parse_primary_expression fuel ts.tail with
        | (condition, ts) =>
            match expectTok TokKind.KeywordThen ts with
            | Except.error e => (Except.error e, ts)
            | Except.ok _ =>
                match parse_body fuel endOfIfBody [] ts.tail with
                | (body, ts) =>
                    match condition with
                    | Except.error e => (Except.error e, ts)
                    | Except.ok c =>
                        match body with
                        | Except.error e => (Except.error e, ts)
                        | Except.ok b =>
                            parse_if_blocks fuel (acc ++ [ConditionalBlock.mk c b]) ts
      else
        (Except.ok acc, ts)

/-- parser.rs parse_if_statement: the conditional blocks, an optional else
block, then one unconditional advance consuming END_IF. -/
def parse_if_statement : Nat → List Tok → PRes Statement
  | 0, ts => (Except.error "parser out of fuel", ts)
  | fuel+1, ts =>
      match parse_if_blocks fuel [] ts with
      | (Except.error e, ts) => (Except.error e, ts)
      | (Except.ok blocks, ts) =>
          if curKind ts = TokKind.KeywordElse then
            match parse_body fuel (fun k => k = TokKind.KeywordEndIf) [] ts.tail with
            | (Except.error e, ts) => (Except.error e, ts)
            | (Except.ok else_block, ts) =>
                (Except.ok (Statement.IfStatement blocks else_block), ts.tail)
          else
            (Except.ok (Statement.IfStatement blocks []), ts.tail)

end

/-- parser.rs parse_variable: name, colon, type identifier, semicolon; the
new variable is pushed onto the owning block (early returns of expect!
leave the lexer in place). -/
def parse_variable (owner : List Variable) (ts : List Tok) :
    PRes (List Variable) :=
  let name := curSlice ts
  let ts := ts.tail
  match expectTok TokKind.KeywordColon ts with
  | Except.error e => (Except.error e, ts)
  | Except.ok _ =>
      let ts := ts.tail
      match expectTok TokKind.Identifier ts with
      | Except.error e => (Except.error e, ts)
      | Except.ok _ =>
          let data_type := curSlice ts
          let ts := ts.tail
          match expectTok TokKind.KeywordSemicolon ts with
          | Except.error e => (Except.error e, ts)
          | Except.ok _ =>
              (Except.ok (owner ++ [{ name := name, data_type := get_data_type data_type }]),
               ts.tail)

/-- The while loop of parser.rs parse_variable_block: parse variables while
the current token is an identifier. -/
def parse_variables : Nat → List Variable → List Tok → PRes (List Variable)
  | 0, _, ts => (Except.error "parser out of fuel", ts)
  | fuel+1, vars, ts =>
      if curKind ts = TokKind.Identifier then
        match parse_variable vars ts with
        | (Except.error e, ts) => (Except.error e, ts)
        | (Except.ok vars, ts) => parse_variables fuel vars ts
      else
        (Except.ok vars, ts)

/-- parser.rs parse_variable_block: consume VAR, parse the variables, expect
END_VAR and consume it. -/
def parse_variable_block (fuel : Nat) (ts : List Tok) : PRes VariableBlock :=
  match parse_variables fuel [] ts.tail with
  | (Except.error e, ts) => (Except.error e, ts)
  | (Except.ok vars, ts) =>
      match expectTok TokKind.KeywordEndVar ts with
      | Except.error e => (Except.error e, ts)
      | Except.ok _ => (Except.ok { vars := vars }, ts.tail)

/-- The while loop of parser.rs parse_program collecting variable blocks
while the current token is VAR. -/
def parse_program_blocks : Nat → List VariableBlock → List Tok →
    PRes (List VariableBlock)
  | 0, _, ts => (Except.error "parser out of fuel", ts)
  | fuel+1, blocks, ts =>
      if curKind ts = TokKind.KeywordVar then
        match parse_variable_block fuel ts with
        | (Except.error e, ts) => (Except.error e, ts)
        | (Except.ok b, ts) => parse_program_blocks fuel (blocks ++ [b]) ts
      else
        (Except.ok blocks, ts)

/-- parser.rs parse_program: consume PROGRAM, expect and consume the name
identifier, the variable blocks, then the body up to END_PROGRAM (left for
the caller to consume). -/
def parse_program (fuel : Nat) (ts : List Tok) : PRes Program :=
  let ts := ts.tail
  match expectTok TokKind.Identifier ts with
  | Except.error e => (Except.error e, ts)
  | Except.ok _ =>
      let name := curSlice ts
      let ts := ts.tail
      match parse_program_blocks fuel [] ts with
      | (Except.error e, ts) => (Except.error e, ts)
      | (Except.ok blocks, ts) =>
          match parse_body fuel (fun k => k = TokKind.KeywordEndProgram) [] ts with
          | (Except.error e, ts) => (Except.error e, ts)
          | (Except.ok statements, ts) =>
              (Except.ok { name := name, variable_blocks := blocks, statements := statements },
               ts)

/-- The loop of parser.rs parse: on PROGRAM parse a program, push it and
advance past END_PROGRAM; on End return the unit; on the error sentinel or
any other token return the corresponding error.  Any Err from parse_program
is returned as the overall result: the pass aborts at the first structural
error. -/
def parse_toplevel : Nat → CompilationUnit → List Tok → PRes CompilationUnit
  | 0, _, ts => (Except.error "parser out of fuel", ts)
  | fuel+1, unit, ts =>
      match curKind ts with
      | TokKind.KeywordProgram =>
          match parse_program fuel ts with
          | (Except.error msg, ts) => (Except.error msg, ts)
          | (Except.ok p, ts) =>
              parse_toplevel fuel { units := unit.units ++ [p] } ts.tail
      | TokKind.End => (Except.ok unit, ts)
      | TokKind.Error => (Except.error (unidentified_token ts), ts)
      | _ => (Except.error (unexpected_token ts), ts)

/-- parser.rs parse: the single entry point, returning either the
compilation unit or the first error string. -/
def parse (fuel : Nat) (ts : List Tok) : Except String CompilationUnit :=
  (parse_toplevel fuel { units := [] } ts).1


/-! ## Type system (src/typesystem.rs) -/

/-- Modelled from the spec: Dimension of an array type lives in the missing
ast.rs; spec section 3 gives Array as inner type name plus dimensions.  The
payload is never inspected by any claim. -/
structure Dimension where
  start_offset : Int
  end_offset : Int
deriving DecidableEq, Repr

/-- typesystem.rs DataTypeInformation. -/
inductive DataTypeInformation where
  | Struct (name : String) (member_names : List String)
  | Array (name : String) (inner_type_name : String) (dimensions : List Dimension)
  | Integer (name : String) (signed : Bool) (size : Nat)
  | Float (name : String) (size : Nat)
  | String (size : Nat)
  | Alias (name : String) (referenced_type : String)
  | Void
deriving DecidableEq, Repr

/-- typesystem.rs is_int. -/
def DataTypeInformation.is_int : DataTypeInformation → Bool
  | .Integer _ _ _ => true
  | _ => false

/-- typesystem.rs is_float. -/
def DataTypeInformation.is_float : DataTypeInformation → Bool
  | .Float _ _ => true
  | _ => false

/-- typesystem.rs is_numerical. -/
def DataTypeInformation.is_numerical : DataTypeInformation → Bool
  | .Integer _ _ _ => true
  | .Float _ _ => true
  | _ => false

/-- typesystem.rs get_size.  On Array and Alias the source calls
unimplemented!() and aborts (spec section 4.2 calls this a fatal internal
error); the embedding returns 0 on those two arms, and no claim below
evaluates get_size on them. -/
def DataTypeInformation.get_size : DataTypeInformation → Nat
  | .Integer _ _ size => size
  | .Float _ size => size
  | .String size => size
  | .Struct _ _ => 0
  | .Array _ _ _ => 0
  | .Alias _ _ => 0
  | .Void => 0

/-- typesystem.rs get_rank: size+1 for signed integers, size for unsigned
integers, size+1000 for floats.  On every other variant the source calls
unreachable!(); the embedding returns 0 there, and the only caller guards
the call by is_same_type_nature, which those variants never satisfy. -/
def get_rank : DataTypeInformation → Nat
  | .Integer _ signed size => if signed then size + 1 else size
  | .Float _ size => size + 1000
  | _ => 0

/-- typesystem.rs is_same_type_nature. -/
def is_same_type_nature (ltype rtype : DataTypeInformation) : Bool :=
  (ltype.is_int && (ltype.is_int == rtype.is_int))
    || (ltype.is_float && (ltype.is_float == rtype.is_float))

/-- typesystem.rs get_real_type. -/
def get_real_type : DataTypeInformation :=
  DataTypeInformation.Float "REAL" 32

/-- typesystem.rs get_lreal_type. -/
def get_lreal_type : DataTypeInformation :=
  DataTypeInformation.Float "LREAL" 64

/-- typesystem.rs get_bigger_type: with the same nature, the operand of the
higher rank (ties go to the left operand); with different natures, REAL, or
LREAL when either operand is wider than REAL. -/
def get_bigger_type (ltype rtype : DataTypeInformation) : DataTypeInformation :=
  if is_same_type_nature ltype rtype then
    if get_rank ltype < get_rank rtype then rtype else ltype
  else
    let real_type := get_real_type
    let real_size := real_type.get_size
    if ltype.get_size > real_size || rtype.get_size > real_size then
      get_lreal_type
    else
      real_type

/-- typesystem.rs DEFAULT_STRING_LEN. -/
def DEFAULT_STRING_LEN : Nat := 80

/-- typesystem.rs DataType: named type with optional initializer and its
information.  The initializer AST lives in the missing ast.rs; the builtin
catalog never carries one. -/
structure DataType where
  name : String
  initial_value : Option Unit
  information : DataTypeInformation
deriving DecidableEq, Repr

/-- typesystem.rs get_type_information. -/
def DataType.get_type_information (d : DataType) : DataTypeInformation :=
  d.information

/-- typesystem.rs get_builtin_types: the fixed scalar catalog. -/
def get_builtin_types : List DataType :=
  [ { name := "__VOID", initial_value := none, information := DataTypeInformation.Void },
    { name := "BOOL", initial_value := none,
      information := DataTypeInformation.Integer "BOOL" true 1 },
    { name := "BYTE", initial_value := none,
      information := DataTypeInformation.Integer "BYTE" false 8 },
    { name := "SINT", initial_value := none,
      information := DataTypeInformation.Integer "SINT" true 8 },
    { name := "USINT", initial_value := none,
      information := DataTypeInformation.Integer "USINT" false 8 },
    { name := "WORD", initial_value := none,
      information := DataTypeInformation.Integer "WORD" false 16 },
    { name := "INT", initial_value := none,
      information := DataTypeInformation.Integer "INT" true 16 },
    { name := "UINT", initial_value := none,
      information := DataTypeInformation.Integer "UINT" false 16 },
    { name := "DWORD", initial_value := none,
      information := DataTypeInformation.Integer "DWORD" false 32 },
    { name := "DINT", initial_value := none,
      information := DataTypeInformation.Integer "DINT" true 32 },
    { name := "UDINT", initial_value := none,
      information := DataTypeInformation.Integer "UDINT" false 32 },
    { name := "LWORD", initial_value := none,
      information := DataTypeInformation.Integer "LWORD" false 64 },
    { name := "LINT", initial_value := none,
      information := DataTypeInformation.Integer "LINT" true 64 },
    { name := "ULINT", initial_value := none,
      information := DataTypeInformation.Integer "ULINT" false 64 },
    { name := "REAL", initial_value := none,
      information := DataTypeInformation.Float "REAL" 32 },
    { name := "LREAL", initial_value := none,
      information := DataTypeInformation.Float "LREAL" 64 },
    { name := "STRING", initial_value := none,
      information := DataTypeInformation.String (DEFAULT_STRING_LEN + 1) } ]

/-! ## Constant evaluator (src/resolver/const_evaluator.rs) -/

/-- Modelled from the spec: the evaluator-side AST enum AstStatement lives in
the missing ast.rs; its variants and payloads are reconstructed from the
patterns const_evaluator.rs matches (LiteralInteger with a machine-integer
value, LiteralReal with the raw text, LiteralBool, Reference, binary and
unary expressions, CastStatement) and from the statement list of spec
section 3, whose remaining shapes (Assignment here as representative) reach
the catch-all error arm of evaluate. -/
inductive AstStatement where
  | LiteralInteger (value : Int)
  | LiteralReal (value : String)
  | LiteralBool (value : Bool)
  | Reference (name : String)
  | BinaryExpression (operator : Operator) (left : AstStatement) (right : AstStatement)
  | UnaryExpression (operator : Operator) (value : AstStatement)
  | CastStatement (target : AstStatement) (type_name : String)
  | Assignment (left : AstStatement) (right : AstStatement)
deriving DecidableEq, Repr

/-- Modelled from the spec: VariableIndexEntry lives in the missing index.rs;
spec section 3 lists exactly a qualified name, a declared type name, an
optional initializer expression and an is-constant flag (the accessor
methods get_qualified_name, get_type_name and is_constant of the source
become field projections). -/
structure VariableIndexEntry where
  qualified_name : String
  type_name : String
  initial_value : Option AstStatement
  is_constant : Bool
deriving DecidableEq, Repr

/-- Modelled from the spec: the Index lives in the missing index.rs; spec
section 6 requires exactly two operations, enumerating all variable entries
and resolving a type name to its DataType. -/
structure Index where
  entries : List VariableIndexEntry
  types : List DataType
deriving DecidableEq, Repr

/-- Modelled from the spec: find_effective_type_by_name of the missing
index.rs, resolving a declared type name in the type catalog (spec section
6). -/
def find_effective_type_by_name (index : Index) (name : String) : Option DataType :=
  index.types.find? (fun t => t.name == name)

/-- Modelled from the spec: get_all_variable_entries of the missing
index.rs enumerates all variable entries across all units (spec section
6). -/
def Index.get_all_variable_entries (index : Index) : List VariableIndexEntry :=
  index.entries

/-- const_evaluator.rs LiteralValue.  The i128 payload is modelled as Int,
the f64 payload as Rat (no claim depends on the numeric value of a real,
only on the constructor and on which error branch is taken). -/
inductive LiteralValue where
  | Int (val : Int)
  | Real (val : Rat)
  | Bool (val : Bool)
deriving DecidableEq, Repr

/-- Outcome of running a piece of evaluator code: a Rust panic (todo!,
integer division by zero), an Err value, or an Ok value.  The panicked
constructor makes the partiality of the source total in the embedding. -/
inductive EvalResult (α : Type) where
  | panicked (msg : String)
  | err (msg : String)
  | ok (val : α)
deriving DecidableEq, Repr

/-- The Rust question-mark operator on a Result, lifted over panics. -/
def EvalResult.andThen : EvalResult α → (α → EvalResult β) → EvalResult β
  | .panicked m, _ => .panicked m
  | .err m, _ => .err m
  | .ok v, f => f v

/-- The resolved-constants map (an IndexMap keyed by qualified name):
association list in insertion order with unique keys. -/
abbrev ConstantsIndex := List (String × LiteralValue)

/-- IndexMap::get. -/
def cindexGet (cindex : ConstantsIndex) (name : String) : Option LiteralValue :=
  List.lookup name cindex

/-- IndexMap::insert: replace in place when the key exists, append
otherwise. -/
def cindexInsert : ConstantsIndex → String → LiteralValue → ConstantsIndex
  | [], name, v => [(name, v)]
  | (k, w) :: rest, name, v =>
      if k = name then (k, v) :: rest else (k, w) :: cindexInsert rest name v

/-- Two's-complement bitwise AND of i128 (the & of the source), written with
kernel-reducing Nat primitives (ldiff m n is m ^^^ (m &&& n), the
complement-of-subset identity). -/
def i128_and : Int → Int → Int
  | .ofNat m, .ofNat n => .ofNat (m &&& n)
  | .ofNat m, .negSucc n => .ofNat (m ^^^ (m &&& n))
  | .negSucc m, .ofNat n => .ofNat (n ^^^ (n &&& m))
  | .negSucc m, .negSucc n => .negSucc (m ||| n)

/-- Two's-complement bitwise OR of i128 (the | of the source). -/
def i128_or : Int → Int → Int
  | .ofNat m, .ofNat n => .ofNat (m ||| n)
  | .ofNat m, .negSucc n => .negSucc (n ^^^ (n &&& m))
  | .negSucc m, .ofNat n => .negSucc (m ^^^ (m &&& n))
  | .negSucc m, .negSucc n => .negSucc (m &&& n)

/-- Two's-complement bitwise XOR of i128 (the caret of the source). -/
def i128_xor : Int → Int → Int
  | .ofNat m, .ofNat n => .ofNat (m ^^^ n)
  | .ofNat m, .negSucc n => .negSucc (m ^^^ n)
  | .negSucc m, .ofNat n => .negSucc (m ^^^ n)
  | .negSucc m, .negSucc n => .ofNat (m ^^^ n)

/-- Two's-complement bitwise NOT of i128 (the ! of the source on integers). -/
def i128_not : Int → Int
  | .ofNat m => .negSucc m
  | .negSucc m => .ofNat m

/-- Truncating (toward zero) division of i128; division by zero is the Rust
panic.  Signed overflow of i128 is not modelled (the integers are
unbounded here). -/
def i128_div (l r : Int) : EvalResult Int :=
  if r = 0 then .panicked "attempt to divide by zero"
  else .ok (Int.tdiv l r)

/-- Truncating remainder of i128; a zero divisor is the Rust panic. -/
def i128_rem (l r : Int) : EvalResult Int :=
  if r = 0 then .panicked "attempt to calculate the remainder with a divisor of zero"
  else .ok (Int.tmod l r)

/-- The f64 arithmetic of the source abstracted on Rat: no claim depends on
the numeric value of a real result.  f64 division never panics, so no
panic case exists here. -/
def f64_arith (op : Operator) (l r : Rat) : Rat :=
  match op with
  | .Plus => l + r
  | .Minus => l - r
  | .Multiplication => l * r
  | .Division => l / r
  | _ => 0

/-- The i128 arithmetic of the arithmetic_expression macro arms: checked
normally, but division panics on a zero divisor. -/
def i128_arith (op : Operator) (l r : Int) : EvalResult Int :=
  match op with
  | .Plus => .ok (l + r)
  | .Minus => .ok (l - r)
  | .Multiplication => .ok (l * r)
  | .Division => i128_div l r
  | _ => .err "not an arithmetic operator"

/-- const_evaluator.rs arithmetic_expression! (one macro expansion per
operator in the source; the operator is a parameter here): int with int
stays int, any real operand promotes to real, anything else is the
cannot-evaluate error (whose interpolated operand dump is dropped). -/
def arithmetic_expression (left : LiteralValue) (op : Operator)
    (right : LiteralValue) (op_text : String) : EvalResult LiteralValue :=
  match left, right with
  | .Int l, .Int r => (i128_arith op l r).andThen fun v => .ok (LiteralValue.Int v)
  | .Int l, .Real r => .ok (LiteralValue.Real (f64_arith op (l : Rat) r))
  | .Real l, .Int r => .ok (LiteralValue.Real (f64_arith op l (r : Rat)))
  | .Real l, .Real r => .ok (LiteralValue.Real (f64_arith op l r))
  | _, _ => .err ("Cannot evaluate " ++ op_text)

/-- const_evaluator.rs bitwise_expression!: int with int, bool with bool,
anything else the cannot-evaluate error. -/
def bitwise_expression (left : LiteralValue) (op : Operator)
    (right : LiteralValue) (op_text : String) : EvalResult LiteralValue :=
  match left, right with
  | .Int l, .Int r =>
      match op with
      | .And => .ok (LiteralValue.Int (i128_and l r))
      | .Or => .ok (LiteralValue.Int (i128_or l r))
      | .Xor => .ok (LiteralValue.Int (i128_xor l r))
      | _ => .err "not a bitwise operator"
  | .Bool l, .Bool r =>
      match op with
      | .And => .ok (LiteralValue.Bool (l && r))
      | .Or => .ok (LiteralValue.Bool (l || r))
      | .Xor => .ok (LiteralValue.Bool (l != r))
      | _ => .err "not a bitwise operator"
  | _, _ => .err ("Cannot evaluate " ++ op_text)

/-- Truncation of a rational toward zero. -/
def ratTrunc (q : Rat) : Int :=
  Int.tdiv q.num (q.den : Int)

/-- The f64 remainder (%) of the source abstracted on Rat as the truncating
remainder; no claim depends on the numeric value of a real result (in
particular the NaN a zero f64 divisor yields is outside the model). -/
def f64_rem (l r : Rat) : Rat :=
  l - r * (ratTrunc (l / r) : Rat)

/-- const_evaluator.rs modulo: the same mixed promotion as arithmetic; the
f64 remainder is abstracted as the truncating rational remainder, and the
int/int remainder panics on a zero divisor as in Rust. -/
def modulo (left right : LiteralValue) : EvalResult LiteralValue :=
  match left, right with
  | .Int l, .Int r => (i128_rem l r).andThen fun v => .ok (LiteralValue.Int v)
  | .Int l, .Real r => .ok (LiteralValue.Real (f64_rem (l : Rat) r))
  | .Real l, .Int r => .ok (LiteralValue.Real (f64_rem l (r : Rat)))
  | .Real l, .Real r => .ok (LiteralValue.Real (f64_rem l r))
  | _, _ => .err "Cannot evaluate MOD"

/-- const_evaluator.rs eq: int and bool comparisons are defined; comparing
two reals is the hard error of the source, kept verbatim. -/
def eq (left right : LiteralValue) : EvalResult LiteralValue :=
  match left, right with
  | .Int l, .Int r => .ok (LiteralValue.Bool (l = r))
  | .Real _, .Real _ => .err "Cannot compare Reals without epsilon"
  | .Bool l, .Bool r => .ok (LiteralValue.Bool (l = r))
  | _, _ => .err "Cannot evaluate = comparison"

/-- const_evaluator.rs neq: the mirror image of eq, with the same hard
error on two reals. -/
def neq (left right : LiteralValue) : EvalResult LiteralValue :=
  match left, right with
  | .Int l, .Int r => .ok (LiteralValue.Bool (l ≠ r))
  | .Real _, .Real _ => .err "Cannot compare Reals without epsilon"
  | .Bool l, .Bool r => .ok (LiteralValue.Bool (l ≠ r))
  | _, _ => .err "Cannot evaluate <> comparison"

/-- const_evaluator.rs expect_bool. -/
def expect_bool (lit : LiteralValue) : EvalResult Bool :=
  match lit with
  | .Bool v => .ok v
  | _ => .err "Expected BoolLiteral"

/-- Value of a list of decimal digit characters (none on a non-digit). -/
def digitsVal (cs : List Char) : Option Nat :=
  cs.foldl
    (fun acc c =>
      match acc with
      | none => none
      | some n => if c.isDigit then some (n * 10 + (c.toNat - 48)) else none)
    (some 0)

/-- The f64 parse the LiteralReal arm of evaluate performs, on the decimal
shapes the lexer produces (optional sign, digits, optional fraction); the
exponent forms f64 parsing would also accept cannot reach this evaluator
and are not modelled, and the rounding of the decimal to the nearest f64 is
abstracted away by the exact rational value. -/
def parseRealString (s : String) : Option Rat :=
  let cs := s.toList
  let signAndRest :=
    match cs with
    | c :: rest =>
        if c = '-' then (true, rest)
        else if c = '+' then (false, rest)
        else (false, cs)
    | [] => (false, cs)
  let neg := signAndRest.1
  let cs2 := signAndRest.2
  let intDigits := cs2.takeWhile Char.isDigit
  let rest := cs2.drop intDigits.length
  match rest with
  | [] =>
      if intDigits.isEmpty then none
      else (digitsVal intDigits).map fun n =>
        if neg then -(n : Rat) else (n : Rat)
  | c :: frac =>
      if c = '.' then
        if intDigits.isEmpty && frac.isEmpty then none
        else if frac.all Char.isDigit then
          (digitsVal intDigits).bind fun ip =>
            (digitsVal frac).map fun fp =>
              let mag : Rat := (ip : Rat) + (fp : Rat) / ((10 : Rat) ^ frac.length)
              if neg then -mag else mag
        else none
      else none

/-- const_evaluator.rs cast_if_necessary: an Int literal becomes a Real
when the declared type resolves to a float type. -/
def cast_if_necessary (literal : LiteralValue) (candidate : VariableIndexEntry)
    (index : Index) : LiteralValue :=
  match find_effective_type_by_name index candidate.type_name with
  | some data_type =>
      match literal with
      | .Int v =>
          if data_type.get_type_information.is_float then
            LiteralValue.Real (v : Rat)
          else
            literal
      | _ => literal
  | none => literal

/-- const_evaluator.rs evaluate: literals evaluate to themselves (the real
literal after an f64 parse that can fail), a reference looks itself up in
the resolved map with absence meaning not-yet-resolvable, a binary
expression evaluates both operands (question mark on each) and applies the
operator when both are present, NOT negates a bool or complements an int,
a cast statement hits the todo! panic of the source, and every other shape
is the catch-all hard error (interpolated dumps of the offending AST are
dropped from the messages). -/
def evaluate (initial : AstStatement) (cindex : ConstantsIndex) (index : Index) :
    EvalResult (Option LiteralValue) :=
  match initial with
  | .LiteralInteger value => .ok (some (LiteralValue.Int value))
  | .CastStatement _ _ => .panicked "not yet implemented"
  | .LiteralReal value =>
      match parseRealString value with
      | some r => .ok (some (LiteralValue.Real r))
      | none => .err ("Cannot parse " ++ value ++ " as Real")
  | .LiteralBool value => .ok (some (LiteralValue.Bool value))
  | .Reference name => .ok (cindexGet cindex name)
  | .BinaryExpression operator left right =>
      (evaluate left cindex index).andThen fun lv =>
        (evaluate right cindex index).andThen fun rv =>
          match lv, rv with
          | some l, some r =>
              (match operator with
               | .Plus => arithmetic_expression l Operator.Plus r "+"
               | .Minus => arithmetic_expression l Operator.Minus r "-"
               | .Multiplication => arithmetic_expression l Operator.Multiplication r "*"
               | .Division => arithmetic_expression l Operator.Division r "/"
               | .Modulo => modulo l r
               | .Equal => eq l r
               | .NotEqual => neq l r
               | .And => bitwise_expression l Operator.And r "AND"
               | .Or => bitwise_expression l Operator.Or r "OR"
               | .Xor => bitwise_expression l Operator.Xor r "XOR"
               | _ => .err "cannot resolve operation").andThen
                fun v => .ok (some v)
          | _, _ => .ok none
  | .UnaryExpression Operator.Not value =>
      (evaluate value cindex index).andThen fun v =>
        match v with
        | some (LiteralValue.Bool b) => .ok (some (LiteralValue.Bool (!b)))
        | some (LiteralValue.Int i) => .ok (some (LiteralValue.Int (i128_not i)))
        | _ => .err "Cannot resolve constant NOT"
  | _ => .err "Cannot resolve constant"

/-- The while loop of const_evaluator.rs evaluate_constants: pop the front
candidate while the no-progress counter is below the queue length; no
initializer sends the name straight to the unresolvable list, a successful
evaluation stores the (possibly masked and cast) value and resets the
counter, and both the not-yet-resolvable outcome Ok(None) and the hard
error outcome Err fall into the same catch-all arm of the source (its TODO
comment marks the missing Ok(None) distinction), which pushes the
candidate back and bumps the counter.  Once the counter reaches the queue
length the remaining candidates are appended to the unresolvable list.  A
panic of evaluate propagates. -/
def evalLoop (index : Index) (queue : List VariableIndexEntry)
    (resolved : ConstantsIndex) (unresolvable : List String) (tries : Nat) :
    EvalResult (ConstantsIndex × List String) :=
  if h : tries < queue.length then
    match queue with
    | [] => .ok (resolved, unresolvable)
    | candidate :: rest =>
        match candidate.initial_value with
        | none =>
            evalLoop index rest resolved
              (unresolvable ++ [candidate.qualified_name]) tries
        | some initial =>
            let candidates_type :=
              (find_effective_type_by_name index candidate.type_name).map
                DataType.get_type_information
            match evaluate initial resolved index with
            | .panicked m => .panicked m
            | .ok (some (LiteralValue.Int v)) =>
                match candidates_type with
                | some (DataTypeInformation.Integer _ false size) =>
                    let mask : Int := 2 ^ size - 1
                    let masked_value := i128_and v mask
                    evalLoop index rest
                      (cindexInsert resolved candidate.qualified_name
                        (cast_if_necessary (LiteralValue.Int masked_value) candidate index))
                      unresolvable 0
                | _ =>
                    evalLoop index rest
                      (cindexInsert resolved candidate.qualified_name
                        (cast_if_necessary (LiteralValue.Int v) candidate index))
                      unresolvable 0
            | .ok (some literal) =>
                evalLoop index rest
                  (cindexInsert resolved candidate.qualified_name
                    (cast_if_necessary literal candidate index))
                  unresolvable 0
            | .ok none =>
                evalLoop index (rest ++ [candidate]) resolved unresolvable (tries + 1)
            | .err _ =>
                evalLoop index (rest ++ [candidate]) resolved unresolvable (tries + 1)
  else
    .ok (resolved, unresolvable ++ queue.map (fun it => it.qualified_name))
termination_by (queue.length, queue.length - tries)
decreasing_by
  · simp_all
    omega
  · simp_all
    omega
  · simp_all
    omega
  · simp_all
    omega
  · simp_all
    omega

/-- const_evaluator.rs evaluate_constants: run the fixpoint loop over the
constant-flagged entries of the index and return the resolved map and the
unresolvable names (the Rust function panics when evaluate panics; the
panic is the panicked constructor here). -/
def evaluate_constants (index : Index) : EvalResult (ConstantsIndex × List String) :=
  let constants := index.get_all_variable_entries.filter (fun it => it.is_constant)
  evalLoop index constants [] [] 0

/-! ## Fixtures shared by the claim theorems -/

/-- An identifier token with its slice. -/
def idT (s : String) : Tok :=
  { kind := TokKind.Identifier, slice := s }

/-- A number-literal token with its slice. -/
def numT (s : String) : Tok :=
  { kind := TokKind.LiteralNumber, slice := s }

/-- A keyword or operator token (their slices are never read). -/
def kw (k : TokKind) : Tok :=
  { kind := k, slice := "" }

/-- An index over the builtin scalar type catalog. -/
def builtinIndex (entries : List VariableIndexEntry) : Index :=
  { entries := entries, types := get_builtin_types }

/-- CONST A : INT := B + 1. -/
def entryA : VariableIndexEntry :=
  { qualified_name := "A", type_name := "INT",
    initial_value := some (AstStatement.BinaryExpression Operator.Plus
      (AstStatement.Reference "B") (AstStatement.LiteralInteger 1)),
    is_constant := true }

/-- CONST B : INT := 2. -/
def entryB : VariableIndexEntry :=
  { qualified_name := "B", type_name := "INT",
    initial_value := some (AstStatement.LiteralInteger 2), is_constant := true }

/-- CONST A : INT := A (self reference). -/
def entrySelfA : VariableIndexEntry :=
  { qualified_name := "A", type_name := "INT",
    initial_value := some (AstStatement.Reference "A"), is_constant := true }

/-- CONST A : INT := B, one half of a two-cycle. -/
def entryCycleA : VariableIndexEntry :=
  { qualified_name := "A", type_name := "INT",
    initial_value := some (AstStatement.Reference "B"), is_constant := true }

/-- CONST B : INT := A, the other half of the two-cycle. -/
def entryCycleB : VariableIndexEntry :=
  { qualified_name := "B", type_name := "INT",
    initial_value := some (AstStatement.Reference "A"), is_constant := true }

/-- CONST a : WORD := 0 - 1, an expression yielding the integer -1 under a
16-bit unsigned declared type. -/
def entryWord : VariableIndexEntry :=
  { qualified_name := "a", type_name := "WORD",
    initial_value := some (AstStatement.BinaryExpression Operator.Minus
      (AstStatement.LiteralInteger 0) (AstStatement.LiteralInteger 1)),
    is_constant := true }

/-- CONST a : INT := (1.0 = 2.0), whose initializer evaluation is the hard
error of comparing two reals. -/
def entryRealEq : VariableIndexEntry :=
  { qualified_name := "a", type_name := "INT",
    initial_value := some (AstStatement.BinaryExpression Operator.Equal
      (AstStatement.LiteralReal "1.0") (AstStatement.LiteralReal "2.0")),
    is_constant := true }

/-- Whether a token kind is one of the binary operator tokens some
precedence level of the parser consumes. -/
def isBinaryOperatorKind (k : TokKind) : Bool :=
  (equalityOperatorOf k).isSome || (compareOperatorOf k).isSome
    || (additiveOperatorOf k).isSome || (multiplicationOperatorOf k).isSome
    || (booleanOperatorOf k).isSome

/-- The operator a binary operator token denotes, across all levels. -/
def tokBinOperator : TokKind → Option Operator
  | .OperatorEqual => some Operator.Equal
  | .OperatorNotEqual => some Operator.NotEqual
  | .OperatorLess => some Operator.Less
  | .OperatorGreater => some Operator.Greater
  | .OperatorLessOrEqual => some Operator.LessOrEqual
  | .OperatorGreaterOrEqual => some Operator.GreaterOrEqual
  | .OperatorPlus => some Operator.Plus
  | .OperatorMinus => some Operator.Minus
  | .OperatorMultiplication => some Operator.Multiplication
  | .OperatorDivision => some Operator.Division
  | .OperatorModulo => some Operator.Modulo
  | .OperatorAnd => some Operator.And
  | .OperatorOr => some Operator.Or
  | .OperatorXor => some Operator.Xor
  | _ => none

/-- The operator token lists of the five binary precedence levels. -/
def precedenceLevels : List (List TokKind) :=
  [ [TokKind.OperatorEqual, TokKind.OperatorNotEqual],
    [TokKind.OperatorLess, TokKind.OperatorGreater,
     TokKind.OperatorLessOrEqual, TokKind.OperatorGreaterOrEqual],
    [TokKind.OperatorPlus, TokKind.OperatorMinus],
    [TokKind.OperatorMultiplication, TokKind.OperatorDivision, TokKind.OperatorModulo],
    [TokKind.OperatorAnd, TokKind.OperatorOr, TokKind.OperatorXor] ]

/-- A compilation unit holding one program named exp with the given
statements (the shape of the parser tests). -/
def expUnit (stmts : List Statement) : CompilationUnit :=
  { units := [{ name := "exp", variable_blocks := [], statements := stmts }] }

/-- The constant-flagged entries of the index, in declaration order (the
initial work queue of evaluate_constants). -/
def constEntries (index : Index) : List VariableIndexEntry :=
  index.get_all_variable_entries.filter (fun it => it.is_constant)

/-- The value the fixpoint loop stores for a candidate once its initializer
evaluated to a literal: integers under an unsigned declared type of width
size are masked with the all-ones mask of that width, and the result is
passed through cast_if_necessary (mirrors the two success arms of the
loop). -/
def storeValue (index : Index) (candidate : VariableIndexEntry)
    (lit : LiteralValue) : LiteralValue :=
  match lit,
      (find_effective_type_by_name index candidate.type_name).map
        DataType.get_type_information with
  | LiteralValue.Int v, some (DataTypeInformation.Integer _ false size) =>
      cast_if_necessary (LiteralValue.Int (i128_and v ((2 : Int) ^ size - 1)))
        candidate index
  | _, _ => cast_if_necessary lit candidate index

/-- The specification notion of claim C2, written from the claim's words and
independent of any queue order: a qualified name is resolvable to a value
when some constant-flagged entry of that name has an initializer that
evaluates to a literal against a map whose every binding is itself
resolvable, the stored value being the masked and cast literal.  The
claim's order-independence is settled by characterizing the resolved map of
evaluate_constants through this predicate. -/
inductive Resolvable (index : Index) : String → LiteralValue → Prop where
  | step (e : VariableIndexEntry) (init : AstStatement) (m : ConstantsIndex)
      (raw : LiteralValue)
      (he : e ∈ constEntries index)
      (hinit : e.initial_value = some init)
      (hm : ∀ p ∈ m, Resolvable index p.1 p.2)
      (heval : evaluate init m index = EvalResult.ok (some raw)) :
      Resolvable index e.qualified_name (storeValue index e raw)

/-- Pointwise extension order on constants maps: every binding of the
smaller map is a binding of the larger one. -/
def cindexLE (m m2 : ConstantsIndex) : Prop :=
  ∀ n v, cindexGet m n = some v → cindexGet m2 n = some v

/-- Compatibility of two constants maps: they agree on every name both
bind. -/
def cindexCompat (m m2 : ConstantsIndex) : Prop :=
  ∀ q w w2, cindexGet m q = some w → cindexGet m2 q = some w2 → w = w2

/-- A failed (retry-arm) outcome of an initializer evaluation: the
not-yet-resolvable Ok(None) or a hard error. -/
def failedEval (r : EvalResult (Option LiteralValue)) : Prop :=
  r = EvalResult.ok none ∨ ∃ msg, r = EvalResult.err msg

/-! ## Helper lemmas -/

/-- Xor with a low-bit all-ones mask is complement within the mask. -/
theorem nat_mask_xor (w k : Nat) (hk : k < 2 ^ w) : (2 ^ w - 1) ^^^ k = 2 ^ w - 1 - k := by
  have hA : ((BitVec.allOnes w) ^^^ (BitVec.ofNat w k)).toNat = 2 ^ w - 1 - k := by
    simp [Nat.mod_eq_of_lt hk]
  have hB : ((BitVec.allOnes w) ^^^ (BitVec.ofNat w k)).toNat = (2 ^ w - 1) ^^^ k := by
    rw [BitVec.toNat_xor, BitVec.toNat_allOnes, BitVec.toNat_ofNat, Nat.mod_eq_of_lt hk]
  rw [hA] at hB
  exact hB.symm

/-- The masking the evaluator performs on unsigned constants is reduction
modulo two to the width: the i128 AND with the all-ones mask of width w
equals the Euclidean remainder modulo 2 ^ w. -/
theorem i128_and_mask (v : Int) (w : Nat) :
    i128_and v ((2 : Int) ^ w - 1) = v % ((2 : Int) ^ w) := by
  have hone : 1 ≤ 2 ^ w := Nat.one_le_two_pow
  have hpow : ((2 : Int) ^ w - 1) = Int.ofNat (2 ^ w - 1) := by
    rw [Int.ofNat_eq_coe]
    push_cast [hone]
    ring
  have hpow2 : ((2 : Int) ^ w) = ((2 ^ w : Nat) : Int) := by push_cast; ring
  cases v with
  | ofNat m =>
      rw [hpow]
      show Int.ofNat (m &&& (2 ^ w - 1)) = _
      rw [Nat.and_pow_two_sub_one_eq_mod, hpow2, Int.ofNat_eq_coe]
      push_cast
      rfl
  | negSucc m =>
      rw [hpow]
      show Int.ofNat ((2 ^ w - 1) ^^^ ((2 ^ w - 1) &&& m)) = _
      rw [Nat.land_comm, Nat.and_pow_two_sub_one_eq_mod]
      have hk : m % 2 ^ w < 2 ^ w := Nat.mod_lt _ (Nat.pos_of_ne_zero (by positivity))
      rw [nat_mask_xor w (m % 2 ^ w) hk]
      have hme : ((m : Int) % ((2 : Int) ^ w)) = ((m % 2 ^ w : Nat) : Int) := by
        rw [hpow2]
        push_cast
        rfl
      have hMpos : (0 : Int) < (2 : Int) ^ w := by positivity
      have hq := Int.emod_add_ediv (m : Int) ((2 : Int) ^ w)
      have hneg : Int.negSucc m = -(m : Int) - 1 := by
        rw [Int.negSucc_eq]
        ring
      have key : (-(m : Int) - 1) =
          (((2 : Int) ^ w) - 1 - ((m : Int) % ((2 : Int) ^ w))) +
            ((2 : Int) ^ w) * (-((m : Int) / ((2 : Int) ^ w)) - 1) := by
        have hexp : ((2 : Int) ^ w) * (-((m : Int) / ((2 : Int) ^ w)) - 1) =
            -(((2 : Int) ^ w) * ((m : Int) / ((2 : Int) ^ w))) - ((2 : Int) ^ w) := by ring
        rw [hexp]
        linarith [hq]
      rw [hneg, key, Int.add_mul_emod_self_left]
      have hklt : ((m : Int) % ((2 : Int) ^ w)) < ((2 : Int) ^ w) := Int.emod_lt_of_pos _ hMpos
      have hknn : (0 : Int) ≤ ((m : Int) % ((2 : Int) ^ w)) := Int.emod_nonneg _ (ne_of_gt hMpos)
      have houter : ((((2 : Int) ^ w) - 1 - ((m : Int) % ((2 : Int) ^ w))) % ((2 : Int) ^ w)) =
          (((2 : Int) ^ w) - 1 - ((m : Int) % ((2 : Int) ^ w))) :=
        Int.emod_eq_of_lt (by omega) (by omega)
      rw [houter, hme, Int.ofNat_eq_coe]
      omega

/-! ## Claim theorems -/

/-- Claim C1 (code_bug evidence): the parser of src/parser.rs fails fast
rather than recovering.  On the token stream of the source text
PROGRAM prg VAR ; END_VAR END_PROGRAM (the exact scenario the in-repo test
parse_error_messages_test.rs expects to yield a recoverable diagnostic
list), the single parse call aborts with the first structural error and
produces no CompilationUnit at all: there is no diagnostics list and no
resynchronization. -/
theorem claim1_parse_aborts_on_first_error :
    parse 99 [kw TokKind.KeywordProgram, idT "prg", kw TokKind.KeywordVar,
      kw TokKind.KeywordSemicolon, kw TokKind.KeywordEndVar, kw TokKind.KeywordEndProgram] =
      Except.error "expected KeywordEndVar, but found KeywordSemicolon" := rfl

/-- Claim C4: the precedence ladder binds AND/OR/XOR tighter than the
arithmetic and comparison operators: 1+2*3 parses as
Plus(1, Multiplication(2,3)), 1*2/7 parses as
Multiplication(1, Division(2,7)), and a AND NOT b OR c XOR d parses with
And outermost and an Or node as its right child (the full tree matches the
in-repo test). -/
theorem claim4_precedence_ladder :
    parse 99 [kw TokKind.KeywordProgram, idT "exp", numT "1", kw TokKind.OperatorPlus,
        numT "2", kw TokKind.OperatorMultiplication, numT "3", kw TokKind.KeywordSemicolon,
        kw TokKind.KeywordEndProgram] =
      Except.ok (expUnit [Statement.BinaryExpression Operator.Plus
        (Statement.LiteralNumber "1")
        (Statement.BinaryExpression Operator.Multiplication
          (Statement.LiteralNumber "2") (Statement.LiteralNumber "3"))]) ∧
    parse 99 [kw TokKind.KeywordProgram, idT "exp", numT "1",
        kw TokKind.OperatorMultiplication, numT "2", kw TokKind.OperatorDivision,
        numT "7", kw TokKind.KeywordSemicolon, kw TokKind.KeywordEndProgram] =
      Except.ok (expUnit [Statement.BinaryExpression Operator.Multiplication
        (Statement.LiteralNumber "1")
        (Statement.BinaryExpression Operator.Division
          (Statement.LiteralNumber "2") (Statement.LiteralNumber "7"))]) ∧
    parse 99 [kw TokKind.KeywordProgram, idT "exp", idT "a", kw TokKind.OperatorAnd,
        kw TokKind.OperatorNot, idT "b", kw TokKind.OperatorOr, idT "c",
        kw TokKind.OperatorXor, idT "d", kw TokKind.KeywordSemicolon,
        kw TokKind.KeywordEndProgram] =
      Except.ok (expUnit [Statement.BinaryExpression Operator.And
        (Statement.Reference "a")
        (Statement.BinaryExpression Operator.Or
          (Statement.UnaryExpression Operator.Not (Statement.Reference "b"))
          (Statement.BinaryExpression Operator.Xor
            (Statement.Reference "c") (Statement.Reference "d")))]) :=
  ⟨rfl, rfl, rfl⟩

/-- Claim C10: the single-expression evaluator is not total on well-typed
inputs: an integer division (or remainder) whose right operand evaluates to
zero reaches the unguarded i128 division and panics, so evaluate yields
neither an Ok nor an Err value there. -/
theorem claim10_division_by_zero_panics :
    evaluate (AstStatement.BinaryExpression Operator.Division
        (AstStatement.LiteralInteger 1) (AstStatement.LiteralInteger 0)) []
        (builtinIndex []) =
      EvalResult.panicked "attempt to divide by zero" ∧
    evaluate (AstStatement.BinaryExpression Operator.Modulo
        (AstStatement.LiteralInteger 1) (AstStatement.LiteralInteger 0)) []
        (builtinIndex []) =
      EvalResult.panicked "attempt to calculate the remainder with a divisor of zero" ∧
    (¬ ∃ v, evaluate (AstStatement.BinaryExpression Operator.Division
        (AstStatement.LiteralInteger 1) (AstStatement.LiteralInteger 0)) []
        (builtinIndex []) = EvalResult.ok v) ∧
    (¬ ∃ m, evaluate (AstStatement.BinaryExpression Operator.Division
        (AstStatement.LiteralInteger 1) (AstStatement.LiteralInteger 0)) []
        (builtinIndex []) = EvalResult.err m) := by
  refine ⟨rfl, rfl, ?_, ?_⟩
  · rintro ⟨v, hv⟩
    simp [evaluate, EvalResult.andThen, arithmetic_expression, i128_arith, i128_div] at hv
  · rintro ⟨m, hm⟩
    simp [evaluate, EvalResult.andThen, arithmetic_expression, i128_arith, i128_div] at hm

/-- Claim C3 (code_bug evidence): the catch-all arm of the fixpoint loop
treats a hard evaluation error exactly like the not-yet-resolvable outcome.
For the constant a : INT := (1.0 = 2.0): the initializer evaluation is the
hard error of comparing reals, yet the loop pushes the candidate back with
the no-progress counter bumped (the first equation is one loop iteration),
and the whole run ends with the error silently discarded and the name
reported as merely unresolvable. -/
theorem claim3_err_is_retried_like_none :
    evaluate (AstStatement.BinaryExpression Operator.Equal
        (AstStatement.LiteralReal "1.0") (AstStatement.LiteralReal "2.0")) []
        (builtinIndex [entryRealEq]) =
      EvalResult.err "Cannot compare Reals without epsilon" ∧
    evalLoop (builtinIndex [entryRealEq]) [entryRealEq] [] [] 0 =
      evalLoop (builtinIndex [entryRealEq]) [entryRealEq] [] [] 1 ∧
    evaluate_constants (builtinIndex [entryRealEq]) = EvalResult.ok ([], ["a"]) := by
  refine ⟨rfl, ?_, ?_⟩
  · rw [evalLoop]
    simp [entryRealEq, evaluate, EvalResult.andThen, eq, parseRealString, digitsVal]
  · simp [evaluate_constants, evalLoop, builtinIndex, entryRealEq, evaluate, cindexGet,
      Index.get_all_variable_entries, EvalResult.andThen, eq, parseRealString, digitsVal]

/-- Claim C7: when the popped candidate declares an unsigned integer type of
width size and its initializer evaluates to the integer v, the fixpoint
loop stores v masked with the all-ones mask of that width, which is exactly
v taken modulo 2 ^ size. -/
theorem claim7_unsigned_masking (index : Index) (name tyName tn : String)
    (e : AstStatement) (rest : List VariableIndexEntry) (resolved : ConstantsIndex)
    (unres : List String) (tries : Nat) (v : Int) (size : Nat)
    (hguard : tries < rest.length + 1)
    (hty : (find_effective_type_by_name index tyName).map DataType.get_type_information =
      some (DataTypeInformation.Integer tn false size))
    (heval : evaluate e resolved index = EvalResult.ok (some (LiteralValue.Int v))) :
    evalLoop index
        ({ qualified_name := name, type_name := tyName, initial_value := some e,
           is_constant := true } :: rest) resolved unres tries =
      evalLoop index rest
        (cindexInsert resolved name (LiteralValue.Int (v % ((2 : Int) ^ size))))
        unres 0 := by
  obtain ⟨dt, hdt, hinfo⟩ := Option.map_eq_some'.mp hty
  have hcast : cast_if_necessary
      (LiteralValue.Int (i128_and v ((2 : Int) ^ size - 1)))
      { qualified_name := name, type_name := tyName, initial_value := some e,
        is_constant := true } index =
      LiteralValue.Int (i128_and v ((2 : Int) ^ size - 1)) := by
    simp [cast_if_necessary, hdt, hinfo, DataTypeInformation.is_float]
  rw [evalLoop]
  simp only [List.length_cons, hguard, dite_true, dif_pos hguard, heval, hty]
  rw [hcast, i128_and_mask]

/-- Claim C8: Equal and NotEqual evaluate on (int,int) and (bool,bool)
operand pairs, and whenever both operands evaluate to real values the whole
binary expression is the hard error Err, never the retry-eligible
Ok(None). -/
theorem claim8_real_equality_is_hard_error (l r : AstStatement) (c : ConstantsIndex)
    (idx : Index) (x y : Rat)
    (hl : evaluate l c idx = EvalResult.ok (some (LiteralValue.Real x)))
    (hr : evaluate r c idx = EvalResult.ok (some (LiteralValue.Real y))) :
    evaluate (AstStatement.BinaryExpression Operator.Equal l r) c idx =
      EvalResult.err "Cannot compare Reals without epsilon" ∧
    evaluate (AstStatement.BinaryExpression Operator.NotEqual l r) c idx =
      EvalResult.err "Cannot compare Reals without epsilon" ∧
    (∀ i j : Int, eq (LiteralValue.Int i) (LiteralValue.Int j) =
        EvalResult.ok (LiteralValue.Bool (decide (i = j))) ∧
      neq (LiteralValue.Int i) (LiteralValue.Int j) =
        EvalResult.ok (LiteralValue.Bool (decide (i ≠ j)))) ∧
    (∀ a b : Bool, eq (LiteralValue.Bool a) (LiteralValue.Bool b) =
        EvalResult.ok (LiteralValue.Bool (decide (a = b))) ∧
      neq (LiteralValue.Bool a) (LiteralValue.Bool b) =
        EvalResult.ok (LiteralValue.Bool (decide (a ≠ b)))) := by
  refine ⟨?_, ?_, fun i j => ⟨rfl, rfl⟩, fun a b => ⟨rfl, rfl⟩⟩ <;>
    simp [evaluate, hl, hr, EvalResult.andThen, eq, neq]

/-- Claim C6: with equal natures get_bigger_type returns one of its two
operands, the one whose rank is the maximum of the two; with different
natures it returns REAL unless either operand is wider than 32 bits, then
LREAL; and the three catalog instances of the spec hold. -/
theorem claim6_get_bigger_type (a b : DataTypeInformation)
    (ha : a.is_numerical = true) (hb : b.is_numerical = true) :
    (is_same_type_nature a b = true →
      (get_bigger_type a b = a ∨ get_bigger_type a b = b) ∧
      get_rank (get_bigger_type a b) = max (get_rank a) (get_rank b)) ∧
    (is_same_type_nature a b = false →
      get_bigger_type a b =
        if 32 < a.get_size || 32 < b.get_size then get_lreal_type else get_real_type) ∧
    get_bigger_type (DataTypeInformation.Integer "INT" true 16)
        (DataTypeInformation.Float "REAL" 32) = DataTypeInformation.Float "REAL" 32 ∧
    get_bigger_type (DataTypeInformation.Integer "LINT" true 64)
        (DataTypeInformation.Float "REAL" 32) = DataTypeInformation.Float "LREAL" 64 ∧
    get_bigger_type (DataTypeInformation.Integer "INT" true 16)
        (DataTypeInformation.Integer "DINT" true 32) =
      DataTypeInformation.Integer "DINT" true 32 := by
  refine ⟨?_, ?_, rfl, rfl, rfl⟩
  · intro hsame
    unfold get_bigger_type
    rw [if_pos hsame]
    by_cases hrk : get_rank a < get_rank b
    · rw [if_pos hrk]
      exact ⟨Or.inr rfl, by omega⟩
    · rw [if_neg hrk]
      exact ⟨Or.inl rfl, by omega⟩
  · intro hdiff
    unfold get_bigger_type
    rw [if_neg (by simp [hdiff])]
    rfl

/-- Witness for claim C6 at INT and DINT (same nature) and at LINT and REAL
(different natures, LINT wider than 32 bits). -/
theorem claim6_get_bigger_type_witness :
    ((is_same_type_nature (DataTypeInformation.Integer "INT" true 16)
        (DataTypeInformation.Integer "DINT" true 32) = true →
      (get_bigger_type (DataTypeInformation.Integer "INT" true 16)
          (DataTypeInformation.Integer "DINT" true 32) =
            DataTypeInformation.Integer "INT" true 16 ∨
        get_bigger_type (DataTypeInformation.Integer "INT" true 16)
          (DataTypeInformation.Integer "DINT" true 32) =
            DataTypeInformation.Integer "DINT" true 32) ∧
      get_rank (get_bigger_type (DataTypeInformation.Integer "INT" true 16)
          (DataTypeInformation.Integer "DINT" true 32)) =
        max (get_rank (DataTypeInformation.Integer "INT" true 16))
          (get_rank (DataTypeInformation.Integer "DINT" true 32))) ∧
     (is_same_type_nature (DataTypeInformation.Integer "LINT" true 64)
        (DataTypeInformation.Float "REAL" 32) = false →
      get_bigger_type (DataTypeInformation.Integer "LINT" true 64)
          (DataTypeInformation.Float "REAL" 32) =
        if 32 < (DataTypeInformation.Integer "LINT" true 64).get_size
            || 32 < (DataTypeInformation.Float "REAL" 32).get_size then
          get_lreal_type
        else get_real_type)) :=
  ⟨(claim6_get_bigger_type (DataTypeInformation.Integer "INT" true 16)
      (DataTypeInformation.Integer "DINT" true 32) rfl rfl).1,
   (claim6_get_bigger_type (DataTypeInformation.Integer "LINT" true 64)
      (DataTypeInformation.Float "REAL" 32) rfl rfl).2.1⟩

/-- Witness for claim C7: the WORD constant whose initializer yields -1:
one loop step stores -1 modulo 2 to the 16, and the whole run resolves the
constant to 65535 with nothing unresolvable. -/
theorem claim7_unsigned_masking_witness :
    evalLoop (builtinIndex [entryWord]) [entryWord] [] [] 0 =
      evalLoop (builtinIndex [entryWord]) []
        (cindexInsert [] "a" (LiteralValue.Int (((-1) : Int) % ((2 : Int) ^ 16)))) [] 0 ∧
    evaluate_constants (builtinIndex [entryWord]) =
      EvalResult.ok ([("a", LiteralValue.Int 65535)], []) := by
  constructor
  · exact claim7_unsigned_masking (builtinIndex [entryWord]) "a" "WORD" "WORD"
      (AstStatement.BinaryExpression Operator.Minus (AstStatement.LiteralInteger 0)
        (AstStatement.LiteralInteger 1)) [] [] [] 0 (-1) 16
      (by decide) rfl rfl
  · simp [evaluate_constants, evalLoop, builtinIndex, entryWord, evaluate, cindexGet,
      cindexInsert, cast_if_necessary, find_effective_type_by_name, get_builtin_types,
      Index.get_all_variable_entries, EvalResult.andThen, arithmetic_expression,
      i128_arith, DataType.get_type_information, DataTypeInformation.is_float]
    decide

/-- Witness for claim C8 at the literal reals 1.0 and 2.0 under the builtin
catalog. -/
theorem claim8_real_equality_is_hard_error_witness :
    evaluate (AstStatement.BinaryExpression Operator.Equal
        (AstStatement.LiteralReal "1.0") (AstStatement.LiteralReal "2.0")) []
        (builtinIndex []) =
      EvalResult.err "Cannot compare Reals without epsilon" ∧
    evaluate (AstStatement.BinaryExpression Operator.NotEqual
        (AstStatement.LiteralReal "1.0") (AstStatement.LiteralReal "2.0")) []
        (builtinIndex []) =
      EvalResult.err "Cannot compare Reals without epsilon" := by
  have h := claim8_real_equality_is_hard_error (AstStatement.LiteralReal "1.0")
    (AstStatement.LiteralReal "2.0") [] (builtinIndex [])
    ((1 : Rat) + (0 : Rat) / (10 : Rat) ^ 1) ((2 : Rat) + (0 : Rat) / (10 : Rat) ^ 1)
    rfl rfl
  exact ⟨h.1, h.2.1⟩

/-- A non-operator token matches no equality operator. -/
theorem equalityOperatorOf_none {k : TokKind} (h : isBinaryOperatorKind k = false) :
    equalityOperatorOf k = none := by
  cases hq : equalityOperatorOf k with
  | none => rfl
  | some o => simp [isBinaryOperatorKind, hq] at h

/-- A non-operator token matches no comparison operator. -/
theorem compareOperatorOf_none {k : TokKind} (h : isBinaryOperatorKind k = false) :
    compareOperatorOf k = none := by
  cases hq : compareOperatorOf k with
  | none => rfl
  | some o => simp [isBinaryOperatorKind, hq] at h

/-- A non-operator token matches no additive operator. -/
theorem additiveOperatorOf_none {k : TokKind} (h : isBinaryOperatorKind k = false) :
    additiveOperatorOf k = none := by
  cases hq : additiveOperatorOf k with
  | none => rfl
  | some o => simp [isBinaryOperatorKind, hq] at h

/-- A non-operator token matches no multiplicative operator. -/
theorem multiplicationOperatorOf_none {k : TokKind} (h : isBinaryOperatorKind k = false) :
    multiplicationOperatorOf k = none := by
  cases hq : multiplicationOperatorOf k with
  | none => rfl
  | some o => simp [isBinaryOperatorKind, hq] at h

/-- A non-operator token matches no boolean operator. -/
theorem booleanOperatorOf_none {k : TokKind} (h : isBinaryOperatorKind k = false) :
    booleanOperatorOf k = none := by
  cases hq : booleanOperatorOf k with
  | none => rfl
  | some o => simp [isBinaryOperatorKind, hq] at h

/-- Claim C9: wrapping an expression in parentheses adds no node: whenever
the primary-expression parser consumes some tokens up to a closing
parenthesis and yields the tree s, the same parser applied to the stream
with an opening parenthesis prepended (so the consumed tokens now sit
between parentheses) yields the identical tree s with the closing
parenthesis consumed, provided the token after the closing parenthesis is
not one of the binary operator tokens (which would extend the expression). -/
theorem claim9_parentheses_transparent (f : Nat) (ts rest : List Tok) (s : Statement)
    (ct : Tok) (sl : String) (hct : ct.kind = TokKind.KeywordParensClose)
    (hres : parse_primary_expression f ts = (Except.ok s, ct :: rest))
    (hstop : isBinaryOperatorKind (curKind rest) = false) :
    parse_primary_expression (f + 7)
        ({ kind := TokKind.KeywordParensOpen, slice := sl } :: ts) =
      (Except.ok s, rest) := by
  have hpar : parse_parenthesized_expression (f + 1)
      ({ kind := TokKind.KeywordParensOpen, slice := sl } :: ts) = (Except.ok s, rest) := by
    show parse_parenthesized_expression (f + 1) _ = _
    rw [parse_parenthesized_expression]
    simp [curKind, hres, expectTok, hct]
  have hbool : parse_boolean_expression (f + 2)
      ({ kind := TokKind.KeywordParensOpen, slice := sl } :: ts) = (Except.ok s, rest) := by
    rw [parse_boolean_expression]
    rw [hpar]
    simp [booleanOperatorOf_none hstop]
  have hmul : parse_multiplication_expression (f + 3)
      ({ kind := TokKind.KeywordParensOpen, slice := sl } :: ts) = (Except.ok s, rest) := by
    rw [parse_multiplication_expression]
    rw [hbool]
    simp [multiplicationOperatorOf_none hstop]
  have hadd : parse_additive_expression (f + 4)
      ({ kind := TokKind.KeywordParensOpen, slice := sl } :: ts) = (Except.ok s, rest) := by
    rw [parse_additive_expression]
    rw [hmul]
    simp [additiveOperatorOf_none hstop]
  have hcmp : parse_compare_expression (f + 5)
      ({ kind := TokKind.KeywordParensOpen, slice := sl } :: ts) = (Except.ok s, rest) := by
    rw [parse_compare_expression]
    rw [hadd]
    simp [compareOperatorOf_none hstop]
  have heq : parse_equality_expression (f + 6)
      ({ kind := TokKind.KeywordParensOpen, slice := sl } :: ts) = (Except.ok s, rest) := by
    rw [parse_equality_expression]
    rw [hcmp]
    simp [equalityOperatorOf_none hstop]
  rw [show f + 7 = (f + 6) + 1 from rfl, parse_primary_expression]
  exact heq

/-- Witness for claim C9: the spec pair, x+y inside parentheses against
x+y bare, both followed by a semicolon, produce the identical Plus tree. -/
theorem claim9_parentheses_transparent_witness :
    parse_primary_expression 27
        ({ kind := TokKind.KeywordParensOpen, slice := "(" } ::
          [idT "x", kw TokKind.OperatorPlus, idT "y",
           kw TokKind.KeywordParensClose, kw TokKind.KeywordSemicolon]) =
      (Except.ok (Statement.BinaryExpression Operator.Plus (Statement.Reference "x")
        (Statement.Reference "y")), [kw TokKind.KeywordSemicolon]) :=
  claim9_parentheses_transparent 20
    [idT "x", kw TokKind.OperatorPlus, idT "y",
     kw TokKind.KeywordParensClose, kw TokKind.KeywordSemicolon]
    [kw TokKind.KeywordSemicolon]
    (Statement.BinaryExpression Operator.Plus (Statement.Reference "x")
      (Statement.Reference "y"))
    (kw TokKind.KeywordParensClose) "(" (by rfl) (by rfl) (by decide)

/-- Claim C5 (amended): same-level operator chains are right-associative at
every binary precedence level: for any two operator tokens of the same
level, x op1 y op2 z parses with op1 outermost and the op2 node nested on
the right; in particular x+y-z is Plus(x, Minus(y,z)) and a-b-c is
Minus(a, Minus(b,c)). -/
theorem claim5_same_level_chains_right_assoc (x y z s1 s2 : String)
    (lvl : List TokKind) (k1 k2 : TokKind) (o1 o2 : Operator)
    (hlvl : lvl ∈ precedenceLevels) (h1 : k1 ∈ lvl) (h2 : k2 ∈ lvl)
    (ho1 : tokBinOperator k1 = some o1) (ho2 : tokBinOperator k2 = some o2) :
    parse_primary_expression 99
        [idT x, { kind := k1, slice := s1 }, idT y, { kind := k2, slice := s2 }, idT z] =
      (Except.ok (Statement.BinaryExpression o1 (Statement.Reference x)
        (Statement.BinaryExpression o2 (Statement.Reference y)
          (Statement.Reference z))), []) := by
  fin_cases hlvl <;> fin_cases h1 <;> fin_cases h2 <;>
    (simp only [tokBinOperator, Option.some.injEq] at ho1 ho2; subst ho1; subst ho2; rfl)

/-- Claim C5 counterexample: the boolean level does not recurse into itself
for its right operand.  The boolean-level parser applied to the tokens of
b = c stops before the equality operator (second equation), yet inside
a AND b = c the right child of the And node is the full Equal(b, c) tree
(first equation): the right operand of AND was parsed by the loosest
production parse_primary_expression, not by parse_boolean_expression
itself. -/
theorem claim5_boolean_level_not_self_recursive :
    parse_boolean_expression 99 [idT "a", kw TokKind.OperatorAnd, idT "b",
        kw TokKind.OperatorEqual, idT "c"] =
      (Except.ok (Statement.BinaryExpression Operator.And (Statement.Reference "a")
        (Statement.BinaryExpression Operator.Equal (Statement.Reference "b")
          (Statement.Reference "c"))), []) ∧
    parse_boolean_expression 99 [idT "b", kw TokKind.OperatorEqual, idT "c"] =
      (Except.ok (Statement.Reference "b"), [kw TokKind.OperatorEqual, idT "c"]) ∧
    Statement.BinaryExpression Operator.Equal (Statement.Reference "b")
        (Statement.Reference "c") ≠ Statement.Reference "b" :=
  ⟨rfl, rfl, fun h => Statement.noConfusion h⟩

/-- Witness for claim C5 at the two spec instances: x+y-z parses as
Plus(x, Minus(y,z)) and a-b-c parses as Minus(a, Minus(b,c)). -/
theorem claim5_same_level_chains_right_assoc_witness :
    parse_primary_expression 99
        [idT "x", { kind := TokKind.OperatorPlus, slice := "+" }, idT "y",
         { kind := TokKind.OperatorMinus, slice := "-" }, idT "z"] =
      (Except.ok (Statement.BinaryExpression Operator.Plus (Statement.Reference "x")
        (Statement.BinaryExpression Operator.Minus (Statement.Reference "y")
          (Statement.Reference "z"))), []) ∧
    parse_primary_expression 99
        [idT "a", { kind := TokKind.OperatorMinus, slice := "-" }, idT "b",
         { kind := TokKind.OperatorMinus, slice := "-" }, idT "c"] =
      (Except.ok (Statement.BinaryExpression Operator.Minus (Statement.Reference "a")
        (Statement.BinaryExpression Operator.Minus (Statement.Reference "b")
          (Statement.Reference "c"))), []) :=
  ⟨claim5_same_level_chains_right_assoc "x" "y" "z" "+" "-"
      [TokKind.OperatorPlus, TokKind.OperatorMinus] TokKind.OperatorPlus
      TokKind.OperatorMinus Operator.Plus Operator.Minus
      (by decide) (by decide) (by decide) rfl rfl,
   claim5_same_level_chains_right_assoc "a" "b" "c" "-" "-"
      [TokKind.OperatorPlus, TokKind.OperatorMinus] TokKind.OperatorMinus
      TokKind.OperatorMinus Operator.Minus Operator.Minus
      (by decide) (by decide) (by decide) rfl rfl⟩

/-- A successful lookup exposes a binding of the association list. -/
theorem mem_of_cindexGet {m : ConstantsIndex} {n : String} {v : LiteralValue}
    (h : cindexGet m n = some v) : (n, v) ∈ m := by
  induction m with
  | nil => simp [cindexGet, List.lookup] at h
  | cons p rest ih =>
      obtain ⟨k, w⟩ := p
      by_cases hn : n = k
      · subst hn
        simp [cindexGet, List.lookup] at h
        simp [h]
      · have hb : (n == k) = false := beq_false_of_ne hn
        simp only [cindexGet, List.lookup, hb] at h
        exact List.mem_cons_of_mem _ (ih h)

/-- A name among the keys has a successful lookup. -/
theorem cindexGet_of_mem_keys {m : ConstantsIndex} {n : String}
    (h : n ∈ m.map Prod.fst) : ∃ v, cindexGet m n = some v := by
  induction m with
  | nil => simp at h
  | cons p rest ih =>
      obtain ⟨k, w⟩ := p
      by_cases hn : n = k
      · subst hn
        exact ⟨w, by simp [cindexGet, List.lookup]⟩
      · have hb : (n == k) = false := beq_false_of_ne hn
        simp only [List.map_cons, List.mem_cons] at h
        rcases h with h | h
        · exact absurd h hn
        · obtain ⟨v, hv⟩ := ih h
          exact ⟨v, by simp only [cindexGet, List.lookup, hb]; exact hv⟩

/-- A failed lookup means the name is not among the keys. -/
theorem not_mem_keys_of_cindexGet_none {m : ConstantsIndex} {n : String}
    (h : cindexGet m n = none) : n ∉ m.map Prod.fst := by
  intro hmem
  obtain ⟨v, hv⟩ := cindexGet_of_mem_keys hmem
  rw [h] at hv
  cases hv

/-- Inserting a fresh key appends the binding. -/
theorem cindexInsert_fresh {m : ConstantsIndex} {n : String} (v : LiteralValue)
    (h : n ∉ m.map Prod.fst) : cindexInsert m n v = m ++ [(n, v)] := by
  induction m with
  | nil => rfl
  | cons p rest ih =>
      obtain ⟨k, w⟩ := p
      simp only [List.map_cons, List.mem_cons] at h
      push_neg at h
      unfold cindexInsert
      rw [if_neg (Ne.symm h.1)]
      simp [ih h.2]

/-- Lookup in an extension by a fresh binding agrees with the old map on
old keys and finds the new binding on the new key. -/
theorem cindexGet_append_single {m : ConstantsIndex} {n q : String}
    {v : LiteralValue} :
    cindexGet (m ++ [(n, v)]) q =
      match cindexGet m q with
      | some w => some w
      | none => if q = n then some v else none := by
  induction m with
  | nil =>
      by_cases hq : q = n
      · simp [cindexGet, List.lookup, hq]
      · simp [cindexGet, List.lookup, hq, beq_false_of_ne hq]
  | cons p rest ih =>
      obtain ⟨k, w⟩ := p
      by_cases hp : q = k
      · simp [cindexGet, List.lookup, hp]
      · have hb : (q == k) = false := beq_false_of_ne hp
        simpa only [cindexGet, List.cons_append, List.lookup, hb] using ih

/-- The question-mark inversion: a composite that produced Ok decomposes. -/
theorem andThen_ok {α β : Type} {x : EvalResult α} {f : α → EvalResult β}
    {y : β} (h : x.andThen f = EvalResult.ok y) :
    ∃ a, x = EvalResult.ok a ∧ f a = EvalResult.ok y := by
  cases x with
  | panicked m => simp [EvalResult.andThen] at h
  | err m => simp [EvalResult.andThen] at h
  | ok a => exact ⟨a, rfl, h⟩

/-- Evaluation is monotone in the resolved map: a definite value keeps its
value when the map grows (references only gain bindings, and bindings never
change). -/
theorem evaluate_mono (idx : Index) :
    ∀ (e : AstStatement) (m m2 : ConstantsIndex), cindexLE m m2 →
      ∀ v, evaluate e m idx = EvalResult.ok (some v) →
        evaluate e m2 idx = EvalResult.ok (some v) := by
  intro e
  induction e with
  | LiteralInteger n =>
      intro m m2 hle v h
      simpa [evaluate] using h
  | LiteralReal s =>
      intro m m2 hle v h
      simp only [evaluate] at h ⊢
      exact h
  | LiteralBool b =>
      intro m m2 hle v h
      simpa [evaluate] using h
  | Reference name =>
      intro m m2 hle v h
      simp only [evaluate] at h ⊢
      rw [hle name v (by injection h)]
  | BinaryExpression op l r ihl ihr =>
      intro m m2 hle v h
      simp only [evaluate] at h
      obtain ⟨lv, hlv, h⟩ := andThen_ok h
      obtain ⟨rv, hrv, h⟩ := andThen_ok h
      cases lv with
      | none => cases rv <;> simp at h
      | some a =>
          cases rv with
          | none => simp at h
          | some b =>
              obtain ⟨w, hw, hww⟩ := andThen_ok h
              have hwv : w = v := by simpa using hww
              subst hwv
              simp only [evaluate, ihl m m2 hle a hlv, ihr m m2 hle b hrv,
                EvalResult.andThen]
              rw [hw]
  | UnaryExpression op val ih =>
      intro m m2 hle v h
      cases op
      case Not =>
          simp only [evaluate] at h
          obtain ⟨w, hw, h⟩ := andThen_ok h
          cases w with
          | none => simp at h
          | some lit =>
              cases lit with
              | Int i =>
                  simp only [evaluate, ih m m2 hle _ hw, EvalResult.andThen]
                  exact h
              | Real x => simp at h
              | Bool b =>
                  simp only [evaluate, ih m m2 hle _ hw, EvalResult.andThen]
                  exact h
      all_goals simp [evaluate] at h
  | CastStatement t tn ih =>
      intro m m2 hle v h
      simp [evaluate] at h
  | Assignment l r ihl ihr =>
      intro m m2 hle v h
      simp [evaluate] at h

/-- Evaluation is deterministic across compatible maps: two runs over maps
that agree on their shared bindings cannot produce two different definite
values. -/
theorem evaluate_agree (idx : Index) :
    ∀ (e : AstStatement) (m m2 : ConstantsIndex), cindexCompat m m2 →
      ∀ v v2, evaluate e m idx = EvalResult.ok (some v) →
        evaluate e m2 idx = EvalResult.ok (some v2) → v = v2 := by
  intro e
  induction e with
  | LiteralInteger n =>
      intro m m2 hc v v2 h h2
      simp [evaluate] at h h2
      rw [← h, ← h2]
  | LiteralReal s =>
      intro m m2 hc v v2 h h2
      simp only [evaluate] at h h2
      cases hp : parseRealString s with
      | none => rw [hp] at h; cases h
      | some q =>
          rw [hp] at h h2
          injection h with h
          injection h2 with h2
          rw [← Option.some.inj h, ← Option.some.inj h2]
  | LiteralBool b =>
      intro m m2 hc v v2 h h2
      simp [evaluate] at h h2
      rw [← h, ← h2]
  | Reference name =>
      intro m m2 hc v v2 h h2
      simp only [evaluate] at h h2
      exact hc name v v2 (by injection h) (by injection h2)
  | BinaryExpression op l r ihl ihr =>
      intro m m2 hc v v2 h h2
      simp only [evaluate] at h h2
      obtain ⟨lv, hlv, h⟩ := andThen_ok h
      obtain ⟨rv, hrv, h⟩ := andThen_ok h
      obtain ⟨lv2, hlv2, h2⟩ := andThen_ok h2
      obtain ⟨rv2, hrv2, h2⟩ := andThen_ok h2
      cases lv with
      | none => cases rv <;> simp at h
      | some a =>
          cases rv with
          | none => simp at h
          | some b =>
              cases lv2 with
              | none => cases rv2 <;> simp at h2
              | some a2 =>
                  cases rv2 with
                  | none => simp at h2
                  | some b2 =>
                      obtain ⟨w, hw, hww⟩ := andThen_ok h
                      obtain ⟨w2, hw2, hww2⟩ := andThen_ok h2
                      have ha : a = a2 := ihl m m2 hc a a2 hlv hlv2
                      have hb : b = b2 := ihr m m2 hc b b2 hrv hrv2
                      subst ha
                      subst hb
                      rw [hw] at hw2
                      have : w = w2 := by injection hw2
                      subst this
                      have e1 : some w = some v := by simpa using hww
                      have e2 : some w = some v2 := by simpa using hww2
                      rw [← Option.some.inj e1, ← Option.some.inj e2]
  | UnaryExpression op val ih =>
      intro m m2 hc v v2 h h2
      cases op
      case Not =>
          simp only [evaluate] at h h2
          obtain ⟨w, hw, h⟩ := andThen_ok h
          obtain ⟨w2, hw2, h2⟩ := andThen_ok h2
          cases w with
          | none => simp at h
          | some lit =>
              cases w2 with
              | none => simp at h2
              | some lit2 =>
                  have hl : lit = lit2 := ih m m2 hc lit lit2 hw hw2
                  subst hl
                  cases lit with
                  | Int i =>
                      have e1 : some (LiteralValue.Int (i128_not i)) = some v := by
                        simpa using h
                      have e2 : some (LiteralValue.Int (i128_not i)) = some v2 := by
                        simpa using h2
                      rw [← Option.some.inj e1, ← Option.some.inj e2]
                  | Real x => simp at h
                  | Bool b =>
                      have e1 : some (LiteralValue.Bool (!b)) = some v := by
                        simpa using h
                      have e2 : some (LiteralValue.Bool (!b)) = some v2 := by
                        simpa using h2
                      rw [← Option.some.inj e1, ← Option.some.inj e2]
      all_goals simp [evaluate] at h
  | CastStatement t tn ih =>
      intro m m2 hc v v2 h h2
      simp [evaluate] at h
  | Assignment l r ihl ihr =>
      intro m m2 hc v v2 h h2
      simp [evaluate] at h

/-- The stop branch of the fixpoint loop: when the no-progress counter has
reached the queue length, the loop returns the current map, and every still
queued candidate keeps failing against it. -/
theorem evalLoop_stop (index : Index) (queue : List VariableIndexEntry)
    (resolved : ConstantsIndex) (unres : List String) (tries : Nat)
    (R : ConstantsIndex) (U : List String)
    (hq : ∀ e ∈ queue, e ∈ constEntries index)
    (hres : ∀ p ∈ resolved, Resolvable index p.1 p.2)
    (hfail : ∀ e ∈ queue.drop (queue.length - tries), ∃ i,
      e.initial_value = some i ∧ failedEval (evaluate i resolved index))
    (hg : ¬ tries < queue.length)
    (hrun : evalLoop index queue resolved unres tries = EvalResult.ok (R, U)) :
    (∀ p ∈ R, Resolvable index p.1 p.2) ∧
    cindexLE resolved R ∧
    (R.map Prod.fst ++ U).Perm
      (queue.map (fun e => e.qualified_name) ++ resolved.map Prod.fst ++ unres) ∧
    (∀ n ∈ U, n ∈ unres ∨ ∃ e, e ∈ constEntries index ∧ e.qualified_name = n ∧
      (e.initial_value = none ∨ ∃ i, e.initial_value = some i ∧
        failedEval (evaluate i R index))) := by
  rw [evalLoop, dif_neg hg] at hrun
  injection hrun with hrun
  have hR : R = resolved := (congrArg Prod.fst hrun).symm
  have hU : U = unres ++ queue.map (fun it => it.qualified_name) :=
    (congrArg Prod.snd hrun).symm
  subst hR
  subst hU
  refine ⟨hres, fun n v hv => hv, ?_, ?_⟩
  · rw [List.perm_iff_count]
    intro a
    simp [List.count_append, List.count_cons]
    omega
  · intro n hn
    rcases List.mem_append.mp hn with hn | hn
    · exact Or.inl hn
    · obtain ⟨e, he, hne⟩ := List.mem_map.mp hn
      have hsuffix : e ∈ queue.drop (queue.length - tries) := by
        have : queue.length - tries = 0 := by omega
        rw [this]
        exact he
      obtain ⟨i, hi, hf⟩ := hfail e hsuffix
      exact Or.inr ⟨e, hq e he, hne, Or.inr ⟨i, hi, hf⟩⟩

/-- The loop invariant of evaluate_constants: along any successful run of
the work-queue loop, (1) every binding of the final map is Resolvable,
(2) the map only grows, (3) the final keys together with the unresolvable
names are a permutation of the queued names, the already-resolved keys and
the already-unresolvable names, and (4) every finally-unresolvable name was
already unresolvable or belongs to a constant entry that has no initializer
or whose initializer evaluation fails (Ok(None) or Err) against the final
map.  The fuel bounds the decreasing measure of the loop. -/
theorem evalLoop_invariant (index : Index) : ∀ (fuel : Nat)
    (queue : List VariableIndexEntry) (resolved : ConstantsIndex)
    (unres : List String) (tries : Nat) (R : ConstantsIndex) (U : List String),
    queue.length * (queue.length + 2) - tries ≤ fuel →
    (∀ e ∈ queue, e ∈ constEntries index) →
    (∀ p ∈ resolved, Resolvable index p.1 p.2) →
    (queue.map (fun e => e.qualified_name) ++ resolved.map Prod.fst).Nodup →
    (∀ e ∈ queue.drop (queue.length - tries), ∃ i,
      e.initial_value = some i ∧ failedEval (evaluate i resolved index)) →
    evalLoop index queue resolved unres tries = EvalResult.ok (R, U) →
    (∀ p ∈ R, Resolvable index p.1 p.2) ∧
    cindexLE resolved R ∧
    (R.map Prod.fst ++ U).Perm
      (queue.map (fun e => e.qualified_name) ++ resolved.map Prod.fst ++ unres) ∧
    (∀ n ∈ U, n ∈ unres ∨ ∃ e, e ∈ constEntries index ∧ e.qualified_name = n ∧
      (e.initial_value = none ∨ ∃ i, e.initial_value = some i ∧
        failedEval (evaluate i R index))) := by
  intro fuel
  induction fuel with
  | zero =>
      intro queue resolved unres tries R U hfuel hq hres hnd hfail hrun
      have hlen : queue.length ≤ queue.length * (queue.length + 2) := by
        calc queue.length = queue.length * 1 := by ring
        _ ≤ queue.length * (queue.length + 2) :=
          Nat.mul_le_mul_left _ (by omega)
      have hg : ¬ tries < queue.length := by omega
      exact evalLoop_stop index queue resolved unres tries R U hq hres hfail hg hrun
  | succ n ih =>
      intro queue resolved unres tries R U hfuel hq hres hnd hfail hrun
      by_cases hg : tries < queue.length
      swap
      · exact evalLoop_stop index queue resolved unres tries R U hq hres hfail hg hrun
      cases queue with
      | nil => simp at hg
      | cons cand rest =>
        have hle : tries ≤ rest.length := by
          simpa using Nat.lt_succ_iff.mp (by simpa using hg)
        simp only [List.length_cons] at hfuel
        have hexp : (rest.length + 1) * (rest.length + 1 + 2) =
            rest.length * (rest.length + 2) + (2 * rest.length + 3) := by ring
        rw [evalLoop, dif_pos hg] at hrun
        simp only [] at hrun
        simp only [List.map_cons, List.cons_append] at hnd
        have hnd2 := List.nodup_cons.mp hnd
        cases hinit : cand.initial_value with
        | none =>
            simp only [hinit] at hrun
            have ihq : ∀ e ∈ rest, e ∈ constEntries index := fun e he =>
              hq e (List.mem_cons_of_mem _ he)
            have ihnd : (rest.map (fun e => e.qualified_name) ++
                resolved.map Prod.fst).Nodup := hnd2.2
            have ihfail : ∀ e ∈ rest.drop (rest.length - tries), ∃ i,
                e.initial_value = some i ∧ failedEval (evaluate i resolved index) := by
              intro e he
              apply hfail
              have hdrop : (cand :: rest).drop ((cand :: rest).length - tries) =
                  rest.drop (rest.length - tries) := by
                have harith : (cand :: rest).length - tries = (rest.length - tries) + 1 := by
                  simp only [List.length_cons]
                  omega
                rw [harith, List.drop_succ_cons]
              rw [hdrop]
              exact he
            have hfuel2 : rest.length * (rest.length + 2) - tries ≤ n := by omega
            obtain ⟨c1, c2, c3, c4⟩ := ih rest resolved
              (unres ++ [cand.qualified_name]) tries R U hfuel2 ihq hres ihnd ihfail hrun
            refine ⟨c1, c2, ?_, ?_⟩
            · refine c3.trans ?_
              rw [List.perm_iff_count]
              intro a
              simp [List.count_append, List.count_cons]
              omega
            · intro n hn
              rcases c4 n hn with hmem | hP
              · rcases List.mem_append.mp hmem with hmem | hmem
                · exact Or.inl hmem
                · refine Or.inr ⟨cand, hq cand (List.mem_cons_self _ _), ?_, Or.inl hinit⟩
                  exact (List.mem_singleton.mp hmem).symm
              · exact Or.inr hP
        | some init =>
            simp only [hinit] at hrun
            have key : ∀ (lit : LiteralValue),
                evaluate init resolved index = EvalResult.ok (some lit) →
                evalLoop index rest
                  (cindexInsert resolved cand.qualified_name (storeValue index cand lit))
                  unres 0 = EvalResult.ok (R, U) →
                (∀ p ∈ R, Resolvable index p.1 p.2) ∧
                cindexLE resolved R ∧
                (R.map Prod.fst ++ U).Perm
                  ((cand :: rest).map (fun e => e.qualified_name) ++
                    resolved.map Prod.fst ++ unres) ∧
                (∀ n ∈ U, n ∈ unres ∨ ∃ e, e ∈ constEntries index ∧
                  e.qualified_name = n ∧
                  (e.initial_value = none ∨ ∃ i, e.initial_value = some i ∧
                    failedEval (evaluate i R index))) := by
              intro lit hev hrun2
              have hfresh : cand.qualified_name ∉ resolved.map Prod.fst := by
                intro hmem
                exact hnd2.1 (List.mem_append.mpr (Or.inr hmem))
              have hins : cindexInsert resolved cand.qualified_name
                  (storeValue index cand lit) =
                  resolved ++ [(cand.qualified_name, storeValue index cand lit)] :=
                cindexInsert_fresh _ hfresh
              have hnew : Resolvable index cand.qualified_name
                  (storeValue index cand lit) :=
                Resolvable.step cand init resolved lit
                  (hq cand (List.mem_cons_self _ _)) hinit hres hev
              have ihq : ∀ e ∈ rest, e ∈ constEntries index := fun e he =>
                hq e (List.mem_cons_of_mem _ he)
              have ihres : ∀ p ∈ cindexInsert resolved cand.qualified_name
                  (storeValue index cand lit), Resolvable index p.1 p.2 := by
                rw [hins]
                intro p hp
                rcases List.mem_append.mp hp with hp | hp
                · exact hres p hp
                · rcases List.mem_singleton.mp hp with rfl
                  exact hnew
              have ihnd : (rest.map (fun e => e.qualified_name) ++
                  (cindexInsert resolved cand.qualified_name
                    (storeValue index cand lit)).map Prod.fst).Nodup := by
                rw [hins]
                refine List.Perm.nodup ?_ hnd
                rw [List.perm_iff_count]
                intro a
                simp [List.count_append, List.count_cons]
                omega
              have ihfail : ∀ e ∈ rest.drop (rest.length - 0), ∃ i,
                  e.initial_value = some i ∧ failedEval (evaluate i
                    (cindexInsert resolved cand.qualified_name
                      (storeValue index cand lit)) index) := by
                intro e he
                simp at he
              have hfuel2 : rest.length * (rest.length + 2) - 0 ≤ n := by omega
              obtain ⟨c1, c2, c3, c4⟩ := ih rest
                (cindexInsert resolved cand.qualified_name (storeValue index cand lit))
                unres 0 R U hfuel2 ihq ihres ihnd ihfail hrun2
              have hgrow : cindexLE resolved
                  (cindexInsert resolved cand.qualified_name
                    (storeValue index cand lit)) := by
                intro n v hv
                rw [hins, cindexGet_append_single, hv]
              refine ⟨c1, fun n v hv => c2 n v (hgrow n v hv), ?_, c4⟩
              refine c3.trans ?_
              rw [hins]
              rw [List.perm_iff_count]
              intro a
              simp [List.count_append, List.count_cons]
              omega
            cases hev : evaluate init resolved index with
            | panicked msg =>
                simp [hev] at hrun
            | err msg =>
                simp only [hev] at hrun
                have ihq : ∀ e ∈ rest ++ [cand], e ∈ constEntries index := by
                  intro e he
                  rcases List.mem_append.mp he with he | he
                  · exact hq e (List.mem_cons_of_mem _ he)
                  · rcases List.mem_singleton.mp he with rfl
                    exact hq e (List.mem_cons_self _ _)
                have ihnd : ((rest ++ [cand]).map (fun e => e.qualified_name) ++
                    resolved.map Prod.fst).Nodup := by
                  refine List.Perm.nodup ?_ hnd
                  rw [List.perm_iff_count]
                  intro a
                  simp [List.count_append, List.count_cons]
                  omega
                have ihfail : ∀ e ∈ (rest ++ [cand]).drop
                    ((rest ++ [cand]).length - (tries + 1)), ∃ i,
                    e.initial_value = some i ∧
                    failedEval (evaluate i resolved index) := by
                  intro e he
                  have harith : (rest ++ [cand]).length - (tries + 1) =
                      rest.length - tries := by
                    simp only [List.length_append, List.length_singleton]
                    omega
                  rw [harith, List.drop_append_of_le_length (by omega)] at he
                  rcases List.mem_append.mp he with he | he
                  · apply hfail
                    have harith2 : (cand :: rest).length - tries =
                        (rest.length - tries) + 1 := by
                      simp only [List.length_cons]
                      omega
                    rw [harith2, List.drop_succ_cons]
                    exact he
                  · rcases List.mem_singleton.mp he with rfl
                    exact ⟨init, hinit, Or.inr ⟨msg, hev⟩⟩
                have hP : rest.length + 1 ≤ (rest.length + 1) * (rest.length + 1 + 2) := by
                  calc rest.length + 1 = (rest.length + 1) * 1 := by ring
                  _ ≤ (rest.length + 1) * (rest.length + 1 + 2) :=
                    Nat.mul_le_mul_left _ (by omega)
                have hfuel2 : (rest ++ [cand]).length * ((rest ++ [cand]).length + 2) -
                    (tries + 1) ≤ n := by
                  simp only [List.length_append, List.length_singleton]
                  omega
                obtain ⟨c1, c2, c3, c4⟩ := ih (rest ++ [cand])
                  resolved unres (tries + 1) R U hfuel2 ihq hres ihnd ihfail hrun
                refine ⟨c1, c2, ?_, c4⟩
                refine c3.trans ?_
                rw [List.perm_iff_count]
                intro a
                simp [List.count_append, List.count_cons]
                omega
            | ok ov =>
                cases ov with
                | none =>
                    simp only [hev] at hrun
                    have ihq : ∀ e ∈ rest ++ [cand], e ∈ constEntries index := by
                      intro e he
                      rcases List.mem_append.mp he with he | he
                      · exact hq e (List.mem_cons_of_mem _ he)
                      · rcases List.mem_singleton.mp he with rfl
                        exact hq e (List.mem_cons_self _ _)
                    have ihnd : ((rest ++ [cand]).map (fun e => e.qualified_name) ++
                        resolved.map Prod.fst).Nodup := by
                      refine List.Perm.nodup ?_ hnd
                      rw [List.perm_iff_count]
                      intro a
                      simp [List.count_append, List.count_cons]
                      omega
                    have ihfail : ∀ e ∈ (rest ++ [cand]).drop
                        ((rest ++ [cand]).length - (tries + 1)), ∃ i,
                        e.initial_value = some i ∧
                        failedEval (evaluate i resolved index) := by
                      intro e he
                      have harith : (rest ++ [cand]).length - (tries + 1) =
                          rest.length - tries := by
                        simp only [List.length_append, List.length_singleton]
                        omega
                      rw [harith, List.drop_append_of_le_length (by omega)] at he
                      rcases List.mem_append.mp he with he | he
                      · apply hfail
                        have harith2 : (cand :: rest).length - tries =
                            (rest.length - tries) + 1 := by
                          simp only [List.length_cons]
                          omega
                        rw [harith2, List.drop_succ_cons]
                        exact he
                      · rcases List.mem_singleton.mp he with rfl
                        exact ⟨init, hinit, Or.inl hev⟩
                    have hP : rest.length + 1 ≤ (rest.length + 1) * (rest.length + 1 + 2) := by
                      calc rest.length + 1 = (rest.length + 1) * 1 := by ring
                      _ ≤ (rest.length + 1) * (rest.length + 1 + 2) :=
                        Nat.mul_le_mul_left _ (by omega)
                    have hfuel2 : (rest ++ [cand]).length * ((rest ++ [cand]).length + 2) -
                        (tries + 1) ≤ n := by
                      simp only [List.length_append, List.length_singleton]
                      omega
                    obtain ⟨c1, c2, c3, c4⟩ := ih (rest ++ [cand])
                      resolved unres (tries + 1) R U hfuel2 ihq hres ihnd ihfail hrun
                    refine ⟨c1, c2, ?_, c4⟩
                    refine c3.trans ?_
                    rw [List.perm_iff_count]
                    intro a
                    simp [List.count_append, List.count_cons]
                    omega
                | some lit =>
                    simp only [hev] at hrun
                    cases lit with
                    | Int v =>
                        cases hct : (find_effective_type_by_name index
                            cand.type_name).map DataType.get_type_information with
                        | none =>
                            simp only [hct] at hrun
                            refine key (LiteralValue.Int v) hev ?_
                            have : storeValue index cand (LiteralValue.Int v) =
                                cast_if_necessary (LiteralValue.Int v) cand index := by
                              simp [storeValue, hct]
                            rw [this]
                            exact hrun
                        | some dti =>
                            simp only [hct] at hrun
                            cases dti with
                            | Integer tn signed size =>
                                cases signed with
                                | false =>
                                    refine key (LiteralValue.Int v) hev ?_
                                    have : storeValue index cand (LiteralValue.Int v) =
                                        cast_if_necessary (LiteralValue.Int
                                          (i128_and v ((2 : Int) ^ size - 1)))
                                          cand index := by
                                      simp [storeValue, hct]
                                    rw [this]
                                    exact hrun
                                | true =>
                                    refine key (LiteralValue.Int v) hev ?_
                                    have : storeValue index cand (LiteralValue.Int v) =
                                        cast_if_necessary (LiteralValue.Int v)
                                          cand index := by
                                      simp [storeValue, hct]
                                    rw [this]
                                    exact hrun
                            | Struct nm mem =>
                                refine key (LiteralValue.Int v) hev ?_
                                have : storeValue index cand (LiteralValue.Int v) =
                                    cast_if_necessary (LiteralValue.Int v) cand index := by
                                  simp [storeValue, hct]
                                rw [this]
                                exact hrun
                            | Array nm inn dims =>
                                refine key (LiteralValue.Int v) hev ?_
                                have : storeValue index cand (LiteralValue.Int v) =
                                    cast_if_necessary (LiteralValue.Int v) cand index := by
                                  simp [storeValue, hct]
                                rw [this]
                                exact hrun
                            | Float nm size =>
                                refine key (LiteralValue.Int v) hev ?_
                                have : storeValue index cand (LiteralValue.Int v) =
                                    cast_if_necessary (LiteralValue.Int v) cand index := by
                                  simp [storeValue, hct]
                                rw [this]
                                exact hrun
                            | String size =>
                                refine key (LiteralValue.Int v) hev ?_
                                have : storeValue index cand (LiteralValue.Int v) =
                                    cast_if_necessary (LiteralValue.Int v) cand index := by
                                  simp [storeValue, hct]
                                rw [this]
                                exact hrun
                            | Alias nm ref =>
                                refine key (LiteralValue.Int v) hev ?_
                                have : storeValue index cand (LiteralValue.Int v) =
                                    cast_if_necessary (LiteralValue.Int v) cand index := by
                                  simp [storeValue, hct]
                                rw [this]
                                exact hrun
                            | Void =>
                                refine key (LiteralValue.Int v) hev ?_
                                have : storeValue index cand (LiteralValue.Int v) =
                                    cast_if_necessary (LiteralValue.Int v) cand index := by
                                  simp [storeValue, hct]
                                rw [this]
                                exact hrun
                    | Real x =>
                        refine key (LiteralValue.Real x) hev ?_
                        have : storeValue index cand (LiteralValue.Real x) =
                            cast_if_necessary (LiteralValue.Real x) cand index := by
                          simp [storeValue]
                        rw [this]
                        exact hrun
                    | Bool b =>
                        refine key (LiteralValue.Bool b) hev ?_
                        have : storeValue index cand (LiteralValue.Bool b) =
                            cast_if_necessary (LiteralValue.Bool b) cand index := by
                          simp [storeValue]
                        rw [this]
                        exact hrun

/-- With pairwise distinct qualified names, a name determines its constant
entry. -/
theorem constEntries_name_inj (index : Index)
    (hnd : ((constEntries index).map (fun e => e.qualified_name)).Nodup)
    {e1 e2 : VariableIndexEntry} (h1 : e1 ∈ constEntries index)
    (h2 : e2 ∈ constEntries index)
    (hq : e1.qualified_name = e2.qualified_name) : e1 = e2 :=
  List.inj_on_of_nodup_map hnd h1 h2 hq

/-- Inversion of a resolvability derivation. -/
theorem resolvable_inversion {index : Index} {n : String} {v : LiteralValue}
    (h : Resolvable index n v) :
    ∃ e init m raw, e ∈ constEntries index ∧ e.qualified_name = n ∧
      e.initial_value = some init ∧ (∀ p ∈ m, Resolvable index p.1 p.2) ∧
      evaluate init m index = EvalResult.ok (some raw) ∧
      v = storeValue index e raw := by
  cases h with
  | step e init m raw he hinit hm heval =>
      exact ⟨e, init, m, raw, he, rfl, hinit, hm, heval, rfl⟩

/-- Resolvability is functional: a name resolves to at most one value
(distinct qualified names assumed). -/
theorem resolvable_functional (index : Index)
    (hnd : ((constEntries index).map (fun e => e.qualified_name)).Nodup) :
    ∀ {n : String} {v : LiteralValue}, Resolvable index n v →
      ∀ {v2 : LiteralValue}, Resolvable index n v2 → v = v2 := by
  intro n v h
  induction h with
  | step e init m raw he hinit hm heval ih =>
      intro v2 h2
      obtain ⟨e2, init2, m2, raw2, he2, hq2, hinit2, hm2, heval2, hv2⟩ :=
        resolvable_inversion h2
      have hee : e2 = e := constEntries_name_inj index hnd he2 he hq2
      subst hee
      rw [hinit] at hinit2
      injection hinit2 with hinit2
      subst hinit2
      have hcompat : cindexCompat m m2 := by
        intro q w w2 hw hw2
        exact ih (q, w) (mem_of_cindexGet hw) (hm2 (q, w2) (mem_of_cindexGet hw2))
      have hraw : raw = raw2 :=
        evaluate_agree index init m m2 hcompat raw raw2 heval heval2
      rw [hv2, hraw]

/-- Completeness of the final map: once the run ended, every resolvable
name carries its value in the final map. -/
theorem resolvable_mem_final (index : Index)
    (hnd : ((constEntries index).map (fun e => e.qualified_name)).Nodup)
    (R : ConstantsIndex) (U : List String)
    (hsound : ∀ p ∈ R, Resolvable index p.1 p.2)
    (hperm : (R.map Prod.fst ++ U).Perm
      ((constEntries index).map (fun e => e.qualified_name)))
    (hUfail : ∀ n ∈ U, ∃ e, e ∈ constEntries index ∧ e.qualified_name = n ∧
      (e.initial_value = none ∨ ∃ i, e.initial_value = some i ∧
        failedEval (evaluate i R index))) :
    ∀ {n : String} {v : LiteralValue}, Resolvable index n v →
      cindexGet R n = some v := by
  intro n v h
  induction h with
  | step e init m raw he hinit hm heval ih =>
      have hmle : cindexLE m R := by
        intro q w hw
        exact ih (q, w) (mem_of_cindexGet hw)
      have hevalR : evaluate init R index = EvalResult.ok (some raw) :=
        evaluate_mono index init m R hmle raw heval
      have hmem : e.qualified_name ∈ R.map Prod.fst ++ U :=
        hperm.mem_iff.mpr (List.mem_map.mpr ⟨e, he, rfl⟩)
      rcases List.mem_append.mp hmem with hR | hU
      · obtain ⟨w, hw⟩ := cindexGet_of_mem_keys hR
        have hresw : Resolvable index e.qualified_name w :=
          hsound _ (mem_of_cindexGet hw)
        have heqv : storeValue index e raw = w :=
          resolvable_functional index hnd
            (Resolvable.step e init m raw he hinit hm heval) hresw
        rw [hw, heqv]
      · obtain ⟨e2, he2, hq2, hfail2⟩ := hUfail _ hU
        have hee : e2 = e := constEntries_name_inj index hnd he2 he hq2
        subst hee
        rcases hfail2 with hnone | ⟨i, hi, hf⟩
        · rw [hinit] at hnone
          cases hnone
        · rw [hinit] at hi
          injection hi with hi
          subst hi
          rcases hf with hOkNone | ⟨msg, hErr⟩
          · rw [hevalR] at hOkNone
            simp at hOkNone
          · rw [hevalR] at hErr
            simp at hErr

/-- Claim C2: for every variable index with distinct qualified names, a
successful evaluate_constants run partitions the constant-flagged entries
by the order-free resolvability predicate: every entry whose initializer is
resolvable (forward and mutual references included) receives its unique
resolved value in the returned map, and every entry that can never resolve
(no initializer, self-reference or reference cycle included) lands in the
unresolvable-name list; since the characterization never mentions the
declaration order, the resolved bindings are the same for any ordering.
In particular A := B + 1 with B := 2 resolves to A = 3, B = 2 with the same
map in either declaration order, while A := A and the pair A := B, B := A
resolve nothing and report every involved name. -/
theorem claim2_fixpoint_resolution (index : Index)
    (hnodup : ((constEntries index).map (fun e => e.qualified_name)).Nodup)
    (R : ConstantsIndex) (U : List String)
    (hrun : evaluate_constants index = EvalResult.ok (R, U)) :
    (∀ e ∈ constEntries index,
      (∃ v, Resolvable index e.qualified_name v ∧
        cindexGet R e.qualified_name = some v ∧ e.qualified_name ∉ U) ∨
      ((¬ ∃ v, Resolvable index e.qualified_name v) ∧
        e.qualified_name ∈ U ∧ cindexGet R e.qualified_name = none)) ∧
    evaluate_constants (builtinIndex [entryA, entryB]) =
      EvalResult.ok ([("B", LiteralValue.Int 2), ("A", LiteralValue.Int 3)], []) ∧
    evaluate_constants (builtinIndex [entryB, entryA]) =
      EvalResult.ok ([("B", LiteralValue.Int 2), ("A", LiteralValue.Int 3)], []) ∧
    evaluate_constants (builtinIndex [entrySelfA]) = EvalResult.ok ([], ["A"]) ∧
    evaluate_constants (builtinIndex [entryCycleA, entryCycleB]) =
      EvalResult.ok ([], ["A", "B"]) := by
  refine ⟨?_, ?_, ?_, ?_, ?_⟩
  case _ =>
    have hrun2 : evalLoop index (constEntries index) [] [] 0 =
        EvalResult.ok (R, U) := hrun
    obtain ⟨hsound, hgrow, hperm, hUfail⟩ := evalLoop_invariant index
      ((constEntries index).length * ((constEntries index).length + 2))
      (constEntries index) [] [] 0 R U (by omega) (fun e he => he)
      (by intro p hp; simp at hp) (by simpa using hnodup)
      (by
        intro e he
        simp at he)
      hrun2
    have hperm2 : (R.map Prod.fst ++ U).Perm
        ((constEntries index).map (fun e => e.qualified_name)) := by
      simpa using hperm
    have hndRU : (R.map Prod.fst ++ U).Nodup := hperm2.nodup_iff.mpr hnodup
    have hUfail2 : ∀ n ∈ U, ∃ e, e ∈ constEntries index ∧ e.qualified_name = n ∧
        (e.initial_value = none ∨ ∃ i, e.initial_value = some i ∧
          failedEval (evaluate i R index)) := by
      intro n hn
      rcases hUfail n hn with hmem | hP
      · simp at hmem
      · exact hP
    intro e he
    by_cases hcase : e.qualified_name ∈ U
    · right
      have hnores : ¬ ∃ v, Resolvable index e.qualified_name v := by
        rintro ⟨v, hv⟩
        have hget := resolvable_mem_final index hnodup R U hsound hperm2 hUfail2 hv
        have hkey : e.qualified_name ∈ R.map Prod.fst :=
          List.mem_map.mpr ⟨(e.qualified_name, v), mem_of_cindexGet hget, rfl⟩
        have hdisj := List.disjoint_of_nodup_append hndRU
        exact hdisj hkey hcase
      refine ⟨hnores, hcase, ?_⟩
      cases hget : cindexGet R e.qualified_name with
      | none => rfl
      | some w =>
          exact absurd ⟨w, hsound _ (mem_of_cindexGet hget)⟩ hnores
    · left
      have hmem : e.qualified_name ∈ R.map Prod.fst ++ U :=
        hperm2.mem_iff.mpr (List.mem_map.mpr ⟨e, he, rfl⟩)
      rcases List.mem_append.mp hmem with hR | hU
      · obtain ⟨v, hv⟩ := cindexGet_of_mem_keys hR
        exact ⟨v, hsound _ (mem_of_cindexGet hv), hv, hcase⟩
      · exact absurd hU hcase
  all_goals
    simp [evaluate_constants, evalLoop, builtinIndex, entryA, entryB, entrySelfA,
      entryCycleA, entryCycleB, evaluate, cindexGet, cindexInsert, cast_if_necessary,
      find_effective_type_by_name, get_builtin_types, Index.get_all_variable_entries,
      EvalResult.andThen, arithmetic_expression, i128_arith,
      DataType.get_type_information, DataTypeInformation.is_float]

/-- Witness for claim C2 at the two-constant index A := B + 1, B := 2 in
forward-reference order, with its computed run. -/
theorem claim2_fixpoint_resolution_witness :
    (∀ e ∈ constEntries (builtinIndex [entryA, entryB]),
      (∃ v, Resolvable (builtinIndex [entryA, entryB]) e.qualified_name v ∧
        cindexGet [("B", LiteralValue.Int 2), ("A", LiteralValue.Int 3)]
          e.qualified_name = some v ∧ e.qualified_name ∉ ([] : List String)) ∨
      ((¬ ∃ v, Resolvable (builtinIndex [entryA, entryB]) e.qualified_name v) ∧
        e.qualified_name ∈ ([] : List String) ∧
        cindexGet [("B", LiteralValue.Int 2), ("A", LiteralValue.Int 3)]
          e.qualified_name = none)) ∧
    evaluate_constants (builtinIndex [entryA, entryB]) =
      EvalResult.ok ([("B", LiteralValue.Int 2), ("A", LiteralValue.Int 3)], []) ∧
    evaluate_constants (builtinIndex [entryB, entryA]) =
      EvalResult.ok ([("B", LiteralValue.Int 2), ("A", LiteralValue.Int 3)], []) ∧
    evaluate_constants (builtinIndex [entrySelfA]) = EvalResult.ok ([], ["A"]) ∧
    evaluate_constants (builtinIndex [entryCycleA, entryCycleB]) =
      EvalResult.ok ([], ["A", "B"]) :=
  claim2_fixpoint_resolution (builtinIndex [entryA, entryB]) (by decide)
    [("B", LiteralValue.Int 2), ("A", LiteralValue.Int 3)] []
    (by simp [evaluate_constants, evalLoop, builtinIndex, entryA, entryB,
      evaluate, cindexGet, cindexInsert, cast_if_necessary,
      find_effective_type_by_name, get_builtin_types, Index.get_all_variable_entries,
      EvalResult.andThen, arithmetic_expression, i128_arith,
      DataType.get_type_information, DataTypeInformation.is_float])
